import Mathlib

/-!
# Verification of the asciimaze repository (genmaze.cpp, solmaze.cpp)

Shallow embedding of the two algorithmic cores of the repository:

* `genmaze.cpp` — Eller-style row-by-row maze generator (`makeRow`,
  `unionSet`, the ASCII renderer's top-line boundary character);
* `solmaze.cpp` — maze parser (`convertRow`), recursive backtracking
  solver (`solveMaze`, `solutionCell`) and the `main` driver.

Machine integers of the source (`uint`, `short`) are modelled as `Nat`
(all values involved are tiny, far from any overflow); the per-cell
direction bitmask operations use `Nat` bitwise `&&&`/`|||`.  The C
arrays `set[]`, `row[]` of length `width` are modelled as `List Nat`,
indexed with `List.getD`/`List.set`.  Loops of the form
`for (r = 0; r < width; r++)` are modelled by structural recursion on a
countdown that starts at `width` while the index counts up, so every
definition is kernel-computable.  Source randomness (`rand() % 2 == 1`)
is a stream of booleans `flips : Nat → Bool`; each generator carve
iteration consumes exactly two flips, in source order.
-/

namespace Asciimaze

/-! ## Shared constants (both source files use the same flag values) -/

def EMPTY : Nat := 0

def UP : Nat := 1

def DOWN : Nat := 2

def LEFT : Nat := 4

def RIGHT : Nat := 8

/-- solmaze.cpp: marker for cells already visited by the search. -/
def CHECKED : Nat := 32

/-- Whitespace margin to the left of the maze (both programs). -/
def BUFFER : Nat := 5

/-- solmaze.cpp: character used when filling in the solution path. -/
def PATHMARKER : Char := 'X'

/-! ## genmaze.cpp: `unionSet`, `makeRow` and its four phases -/

/-- genmaze.cpp `unionSet`: merge set `b` into set `a` by rewriting every
column whose label equals `b` to `a`. -/
def unionSet (set : List Nat) (a b : Nat) : List Nat :=
  set.map fun x => if x = b then a else x

/-- The `while (!foundNext)` search of `makeRow`'s reset loop: starting
from candidate `n`, keep incrementing while the candidate occurs in the
Set row.  The C loop is unbounded; `s.length + 1` probes always suffice
(proved in `findFreeAux_spec` below), so the fuelled version computes the
same value the C loop does. -/
def findFreeAux : Nat → List Nat → Nat → Nat
  | 0, _, n => n
  | fuel + 1, s, n => if n ∈ s then findFreeAux fuel s (n + 1) else n

/-- The lowest set number not already taken, scanning forward from `n`. -/
def findFree (s : List Nat) (n : Nat) : Nat :=
  findFreeAux (s.length + 1) s n

/-- genmaze.cpp `makeRow`, phase 1 (reset): columns `r, r+1, …` of the
loop `for (r = 0; r < width; r++)`; a cell going DOWN becomes UP and
keeps its set, any other cell is cleared to EMPTY and given a fresh set
label; `num` is the running `startingSetNum` (initially 1, never reset
between columns).  The saving `previousRow[r] = row[r]` feeds only the
renderer: the previous row is exactly the input `row`, handled at the
call site. -/
def resetFrom (width : Nat) : Nat → List Nat → List Nat → Nat → Nat → List Nat × List Nat
  | 0, set, row, _, _ => (set, row)
  | n + 1, set, row, num, r =>
    if r < width then
      if row.getD r 0 &&& DOWN ≠ 0 then
        resetFrom width n set (row.set r UP) num (r + 1)
      else
        let nn := findFree set num
        resetFrom width n (set.set r nn) (row.set r EMPTY) nn (r + 1)
    else (set, row)

/-- One iteration of `makeRow`'s random carving loop (phase 2): flip a
coin for a horizontal passage to the left (guarded by `i > 0` and the
cells being in different sets, with a union), then flip a coin for a
vertical passage down (skipped on the last row).  The source calls
`rand()` exactly twice per iteration, modelled as `flips (2*i)` and
`flips (2*i+1)`. -/
def carveStep (flips : Nat → Bool) (isLast : Bool) (set row : List Nat) (i : Nat) :
    List Nat × List Nat :=
  let p :=
    if flips (2 * i) = true then
      if 0 < i ∧ set.getD i 0 ≠ set.getD (i - 1) 0 then
        let row1 := row.set i (row.getD i 0 ||| LEFT)
        let row2 := row1.set (i - 1) (row1.getD (i - 1) 0 ||| RIGHT)
        (unionSet set (set.getD i 0) (set.getD (i - 1) 0), row2)
      else (set, row)
    else (set, row)
  let row3 :=
    if flips (2 * i + 1) = true ∧ isLast = false then
      p.2.set i (p.2.getD i 0 ||| DOWN)
    else p.2
  (p.1, row3)

/-- genmaze.cpp `makeRow`, phase 2: `for (i = 0; i < width; i++)`. -/
def carveFrom (flips : Nat → Bool) (isLast : Bool) (width : Nat) :
    Nat → List Nat → List Nat → Nat → List Nat × List Nat
  | 0, set, row, _ => (set, row)
  | n + 1, set, row, i =>
    if i < width then
      let p := carveStep flips isLast set row i
      carveFrom flips isLast width n p.1 p.2 (i + 1)
    else (set, row)

/-- The inner scan of `makeRow`'s phase 3: does any column of set `mset`
already go down?  (`goDown` is set to false exactly when this holds.) -/
def setHasDown (width : Nat) (set row : List Nat) (mset : Nat) : Bool :=
  (List.range width).any fun i => set.getD i 0 == mset && row.getD i 0 &&& DOWN != 0

/-- genmaze.cpp `makeRow`, phase 3 (non-final rows only): any set with no
column going down gets DOWN forced on the first such column scanned. -/
def forceDownFrom (width : Nat) : Nat → List Nat → List Nat → Nat → List Nat
  | 0, _, row, _ => row
  | n + 1, set, row, r =>
    if r < width then
      if row.getD r 0 &&& DOWN ≠ 0 then forceDownFrom width n set row (r + 1)
      else if setHasDown width set row (set.getD r 0) then forceDownFrom width n set row (r + 1)
      else forceDownFrom width n set (row.set r (row.getD r 0 ||| DOWN)) (r + 1)
    else row

/-- genmaze.cpp `makeRow`, phase 4 (final row only):
`for (r = 0; r < width - 1; r++)` merging adjacent cells in different
sets with a forced LEFT/RIGHT passage and `unionSet(set[r+1], set[r])`. -/
def closeLastFrom (width : Nat) : Nat → List Nat → List Nat → Nat → List Nat × List Nat
  | 0, set, row, _ => (set, row)
  | n + 1, set, row, r =>
    if r < width - 1 then
      if set.getD r 0 = set.getD (r + 1) 0 then closeLastFrom width n set row (r + 1)
      else
        let row1 := row.set r (row.getD r 0 ||| RIGHT)
        let row2 := row1.set (r + 1) (row1.getD (r + 1) 0 ||| LEFT)
        closeLastFrom width n (unionSet set (set.getD (r + 1) 0) (set.getD r 0)) row2 (r + 1)
    else (set, row)

/-- genmaze.cpp `makeRow`: phase 1, phase 2, then phase 3 on non-final
rows and phase 4 on the final row.  Returns the new `(set, row)` pair. -/
def makeRow (flips : Nat → Bool) (isLast : Bool) (width : Nat) (set row : List Nat) :
    List Nat × List Nat :=
  let p1 := resetFrom width width set row 1 0
  let p2 := carveFrom flips isLast width width p1.1 p1.2 0
  if isLast then closeLastFrom width width p2.1 p2.2 0
  else (p2.1, forceDownFrom width width p2.1 p2.2 0)

/-! ## genmaze.cpp: `outputASCII` top-line boundary character -/

/-- genmaze.cpp `outputASCII`, lines printing the per-column boundary
character of the top line:
space if the previous row's cell had RIGHT and this row's cell does not,
otherwise `|` when this is not the first row and the previous row's cell
lacked RIGHT, otherwise `_`. -/
def asciiBoundary (prevCell cell : Nat) (isFirst : Bool) : String :=
  if prevCell &&& RIGHT ≠ 0 ∧ cell &&& RIGHT = 0 then " "
  else if isFirst = false ∧ prevCell &&& RIGHT = 0 then "|" else "_"

/-- The complete top line emitted by `outputASCII` for one row: margin,
`' '` or `'|'`, then per column two interior characters and the boundary
character. -/
def asciiTopLine (previousRow row : List Nat) (width : Nat) (isFirst : Bool) : String :=
  String.mk (List.replicate BUFFER ' ') ++ (if isFirst then " " else "|") ++
    String.join ((List.range width).map fun r =>
      (if row.getD r 0 &&& UP ≠ 0 then "  " else "__") ++
        asciiBoundary (previousRow.getD r 0) (row.getD r 0) isFirst)

/-- Modelled from the spec wording of claim C3, not from the source: the
boundary character is a space when the previous row's cell has RIGHT and
this row's cell lacks RIGHT, "otherwise an underscore when the previous
row's cell lacks RIGHT and the row is not the first row, otherwise an
underscore".  To be compared with `asciiBoundary`. -/
def boundaryCharSpecC3 (prevCell cell : Nat) (isFirst : Bool) : String :=
  if prevCell &&& RIGHT ≠ 0 ∧ cell &&& RIGHT = 0 then " "
  else if isFirst = false ∧ prevCell &&& RIGHT = 0 then "_" else "_"

/-! ## solmaze.cpp: `convertRow` -/

/-- Qt3 `const QString::operator[]`: the character at index `i`, or the
null character when `i` is beyond the length of the string. -/
def charAtQ (s : List Char) (i : Nat) : Char :=
  s.getD i (Char.ofNat 0)

/-- The row array being filled by `convertRow` (`new short[width]`),
together with the trace of indices written.  The C array is indexed by a
machine integer; index `-1` (reachable at column 0) is an out-of-bounds
write, so the memory is modelled over `Int` and every write is recorded.
The fresh allocation is uninitialised; the model reads unwritten cells
as 0, which no claim depends on (every in-range cell is assigned by `=`
before it is read). -/
structure RowBuf where
  mem : Int → Nat
  writes : List Int

def writeCell (buf : RowBuf) (i : Int) (v : Nat) : RowBuf :=
  ⟨fun j => if j = i then v else buf.mem j, i :: buf.writes⟩

def orCell (buf : RowBuf) (i : Int) (v : Nat) : RowBuf :=
  writeCell buf i (buf.mem i ||| v)

/-- solmaze.cpp `convertRow`, loop body for columns `i, i+1, …`:
`row[i]` starts as UP when the previous row went down (EMPTY otherwise,
also when there is no previous row), gains DOWN when
`c[i*3 + BUFFER + 1] != '_'`, and when `b[i*3 + BUFFER]` is not `'|'`
gains LEFT while `row[i-1]` gains RIGHT — at `i = 0` that second write
lands on index `-1`. -/
def convertRowFrom (a : Option (List Nat)) (b c : List Char) :
    Nat → Nat → RowBuf → RowBuf
  | 0, _, buf => buf
  | n + 1, i, buf =>
    let init : Nat :=
      match a with
      | some aRow => if aRow.getD i 0 &&& DOWN ≠ 0 then UP else EMPTY
      | none => EMPTY
    let buf1 := writeCell buf (i : Int) init
    let buf2 := if charAtQ c (i * 3 + BUFFER + 1) ≠ '_' then orCell buf1 (i : Int) DOWN else buf1
    let buf3 :=
      if ¬(charAtQ b (i * 3 + BUFFER) = '|') then
        orCell (orCell buf2 (i : Int) LEFT) ((i : Int) - 1) RIGHT
      else buf2
    convertRowFrom a b c n (i + 1) buf3

/-- solmaze.cpp `convertRow` over three text lines (`a` is the previous
row's already-converted array, or `none` for the first row). -/
def convertRow (a : Option (List Nat)) (b c : List Char) (width : Nat) : RowBuf :=
  convertRowFrom a b c width 0 ⟨fun _ => 0, []⟩

/-! ## solmaze.cpp: the maze structure, `solutionCell`, `solveMaze`, `main` -/

/-- solmaze.cpp `struct maze`: the text lines, the grid of direction
bitmasks, the dimensions and the destination point.  The text is a list
of lines of characters; the grid is a list of rows of cells. -/
structure Maze where
  rows : List (List Nat)
  txt : List (List Char)
  width : Nat
  height : Nat
  destX : Int
  destY : Int

/-- Read `l[i]` for a possibly negative machine-integer index; for the
in-bounds accesses the claims are about this is plain list indexing. -/
def getI {α : Type} (l : List α) (i : Int) (d : α) : α :=
  if 0 ≤ i then l.getD i.toNat d else d

/-- Write `l[i] := v`; writes outside the list are dropped (the solver
claims are stated for grids where this case is never reached). -/
def setI {α : Type} (l : List α) (i : Int) (v : α) : List α :=
  if 0 ≤ i then l.set i.toNat v else l

/-- `m->rows[y][x]`. -/
def cellAt (rows : List (List Nat)) (x y : Int) : Nat :=
  getI (getI rows y []) x 0

/-- `m->rows[y][x] = v`. -/
def setCell (rows : List (List Nat)) (x y : Int) (v : Nat) : List (List Nat) :=
  setI rows y (setI (getI rows y []) x v)

/-- `m->rows[y][x] |= CHECKED`. -/
def markMaze (m : Maze) (x y : Int) : Maze :=
  { m with rows := setCell m.rows x y (cellAt m.rows x y ||| CHECKED) }

/-- solmaze.cpp `solutionCell`: overwrite the two interior characters of
ascii cell `(x, y)` with PATHMARKER. -/
def solutionCell (m : Maze) (x y : Int) : Maze :=
  let line := getI m.txt (y * 2 + 1) []
  let line2 := setI (setI line (x * 3 + BUFFER + 1) PATHMARKER) (x * 3 + BUFFER + 2) PATHMARKER
  { m with txt := setI m.txt (y * 2 + 1) line2 }

/-- `if (!foundEnd) try the next direction` — sequencing of the four
recursive attempts in `solveMaze`, short-circuiting on the first
success. -/
def andThen (o : Option (Maze × Bool)) (k : Maze → Option (Maze × Bool)) :
    Option (Maze × Bool) :=
  match o with
  | none => none
  | some (m, true) => some (m, true)
  | some (m, false) => k m

/-- solmaze.cpp `solveMaze`.  The C function is recursive with no
structural bound, so the model takes fuel (one unit per call) and
returns `none` on exhaustion; `solveMaze_search_total` below shows fuel
`uncheckedCount + 1` always suffices on closed grids, which is exactly
the C termination argument.  `cell` is read before the CHECKED mark, as
in the source, so the four direction guards test the unmarked value. -/
def solveMaze : Nat → Maze → Int → Int → Nat → Option (Maze × Bool)
  | 0, _, _, _, _ => none
  | fuel + 1, m, x, y, fr =>
    let cell := cellAt m.rows x y
    if cell &&& CHECKED ≠ 0 then some (m, false)
    else
      let m1 := markMaze m x y
      if x = m.destX ∧ y = m.destY then some (solutionCell m1 x y, true)
      else
        let o :=
          andThen (andThen (andThen
            (if fr ≠ RIGHT ∧ cell &&& LEFT ≠ 0 then solveMaze fuel m1 (x - 1) y LEFT
             else some (m1, false))
            (fun m2 => if fr ≠ DOWN ∧ cell &&& UP ≠ 0 then solveMaze fuel m2 x (y - 1) UP
             else some (m2, false)))
            (fun m3 => if fr ≠ UP ∧ cell &&& DOWN ≠ 0 then solveMaze fuel m3 x (y + 1) DOWN
             else some (m3, false)))
            (fun m4 => if fr ≠ LEFT ∧ cell &&& RIGHT ≠ 0 then solveMaze fuel m4 (x + 1) y RIGHT
             else some (m4, false))
        match o with
        | none => none
        | some (m5, b) => if b then some (solutionCell m5 x y, true) else some (m5, false)

/-- solmaze.cpp `main` after `read`: destination is the top-right cell
`(width - 1, 0)`, start is the bottom-left cell `(0, height)`; on
success the marked text is written to stdout and `isSolvable` (= 1) is
returned, otherwise the diagnostic goes to stderr and `isSolvable`
(= 0) is returned.  Result: `(stdout maze text, stderr message, exit
code)`, or `none` if the modelled search ran out of fuel. -/
def solmazeMain (fuel : Nat) (rows : List (List Nat)) (txt : List (List Char))
    (width height : Nat) : Option (Option (List (List Char)) × Option String × Nat) :=
  let m : Maze := ⟨rows, txt, width, height, (width : Int) - 1, 0⟩
  match solveMaze fuel m 0 (height : Int) EMPTY with
  | none => none
  | some (m2, b) =>
    if b then some (some m2.txt, none, 1)
    else some (none, some "No path found through maze.", 0)

/-! ## Predicates used by the solver claims -/

/-- Every grid row has length `width` (the shape `read` produces). -/
abbrev Rect (m : Maze) : Prop := ∀ r ∈ m.rows, r.length = m.width

/-- No passage points outside the grid: column 0 has no LEFT, the last
column no RIGHT, row 0 no UP, the last row no DOWN.  This is what the
parser produces for well-formed maze text. -/
abbrev ClosedGrid (m : Maze) : Prop :=
  ∀ yi, yi < m.rows.length → ∀ xi, xi < m.width →
    ((m.rows.getD yi []).getD xi 0 &&& LEFT ≠ 0 → 0 < xi) ∧
    ((m.rows.getD yi []).getD xi 0 &&& RIGHT ≠ 0 → xi + 1 < m.width) ∧
    ((m.rows.getD yi []).getD xi 0 &&& UP ≠ 0 → 0 < yi) ∧
    ((m.rows.getD yi []).getD xi 0 &&& DOWN ≠ 0 → yi + 1 < m.rows.length)

/-- `(x, y)` is a grid position. -/
abbrev InGrid (m : Maze) (x y : Int) : Prop :=
  0 ≤ x ∧ x < (m.width : Int) ∧ 0 ≤ y ∧ y < (m.rows.length : Int)

def rowUnchecked (r : List Nat) : Nat :=
  r.countP fun c => c &&& CHECKED == 0

/-- Number of grid cells not yet carrying the CHECKED flag. -/
def uncheckedCount (rows : List (List Nat)) : Nat :=
  (rows.map rowUnchecked).sum

/-- How one cell may evolve under the search: unchanged, or with the
CHECKED flag added. -/
def CellRel (c c2 : Nat) : Prop := c2 = c ∨ c2 = c ||| CHECKED

def RowsRel (rs rs2 : List (List Nat)) : Prop :=
  List.Forall₂ (List.Forall₂ CellRel) rs rs2

/-- How a maze may evolve under the search: cells gain at most CHECKED,
dimensions and destination are untouched. -/
def MRel (m m2 : Maze) : Prop :=
  RowsRel m.rows m2.rows ∧ m2.width = m.width ∧ m2.destX = m.destX ∧ m2.destY = m.destY

/-! ## Bitmask helper lemmas -/

theorem UP_pow : UP = 2 ^ 0 := rfl

theorem DOWN_pow : DOWN = 2 ^ 1 := rfl

theorem LEFT_pow : LEFT = 2 ^ 2 := rfl

theorem RIGHT_pow : RIGHT = 2 ^ 3 := rfl

theorem CHECKED_pow : CHECKED = 2 ^ 5 := rfl

theorem and_pow_ne_iff (x k : Nat) : x &&& 2 ^ k ≠ 0 ↔ x.testBit k = true := by
  rw [Nat.and_two_pow]
  cases h : x.testBit k <;>
    simp [h, Nat.ne_of_gt (Nat.pos_pow_of_pos k (by norm_num : 0 < 2))]

theorem or_pow_and_self (x k : Nat) : (x ||| 2 ^ k) &&& 2 ^ k ≠ 0 := by
  rw [and_pow_ne_iff, Nat.testBit_or, Nat.testBit_two_pow_self, Bool.or_true]

theorem or_pow_and_other (x j k : Nat) (h : j ≠ k) : (x ||| 2 ^ j) &&& 2 ^ k = x &&& 2 ^ k := by
  rw [Nat.and_two_pow, Nat.and_two_pow, Nat.testBit_or, Nat.testBit_two_pow_of_ne h,
    Bool.or_false]

theorem or_preserves_pow (x y k : Nat) (h : x &&& 2 ^ k ≠ 0) : (x ||| y) &&& 2 ^ k ≠ 0 := by
  rw [and_pow_ne_iff] at h ⊢
  rw [Nat.testBit_or, h, Bool.true_or]

/-! ## List helper lemmas -/

theorem getD_set {α : Type} (l : List α) (i j : Nat) (v d : α) :
    (l.set i v).getD j d = if i = j ∧ j < l.length then v else l.getD j d := by
  induction l generalizing i j with
  | nil => simp
  | cons a t ih =>
    cases i with
    | zero =>
      cases j with
      | zero => simp
      | succ j2 => simp
    | succ i2 =>
      cases j with
      | zero => simp
      | succ j2 =>
        simp only [List.set_cons_succ, List.getD_cons_succ, List.length_cons, ih i2 j2]
        by_cases hij : i2 = j2 ∧ j2 < t.length
        · rw [if_pos hij, if_pos ⟨by omega, by omega⟩]
        · rw [if_neg hij, if_neg (by omega)]

theorem getD_set_self {α : Type} (l : List α) (i : Nat) (v d : α) (hi : i < l.length) :
    (l.set i v).getD i d = v := by
  rw [getD_set, if_pos ⟨rfl, hi⟩]

theorem getD_set_ne {α : Type} (l : List α) (i j : Nat) (v d : α) (hij : i ≠ j) :
    (l.set i v).getD j d = l.getD j d := by
  rw [getD_set, if_neg (by omega)]

theorem getD_map_rowUnchecked (l : List (List Nat)) (i : Nat) (hi : i < l.length) :
    (l.map rowUnchecked).getD i 0 = rowUnchecked (l.getD i []) := by
  induction l generalizing i with
  | nil => simp at hi
  | cons a t ih =>
    cases i with
    | zero => simp
    | succ i2 => simpa using ih i2 (by simpa using hi)

theorem sum_set_nat (l : List Nat) (i : Nat) (v : Nat) (hi : i < l.length) :
    (l.set i v).sum + l.getD i 0 = l.sum + v := by
  induction l generalizing i with
  | nil => simp at hi
  | cons a t ih =>
    cases i with
    | zero => simp [Nat.add_comm, Nat.add_left_comm, Nat.add_assoc]
    | succ i2 =>
      simp only [List.set_cons_succ, List.getD_cons_succ, List.sum_cons]
      have := ih i2 (by simpa using hi)
      omega

theorem rowUnchecked_set (r : List Nat) (i : Nat) (v : Nat) (hi : i < r.length)
    (hold : r.getD i 0 &&& CHECKED = 0) (hnew : v &&& CHECKED ≠ 0) :
    rowUnchecked (r.set i v) + 1 = rowUnchecked r := by
  induction r generalizing i with
  | nil => simp at hi
  | cons a t ih =>
    cases i with
    | zero =>
      simp only [List.getD_cons_zero] at hold
      simp only [List.set_cons_zero, rowUnchecked, List.countP_cons]
      have h1 : (v &&& CHECKED == 0) = false := by simpa using hnew
      have h2 : (a &&& CHECKED == 0) = true := by simpa using hold
      simp [h1, h2]
    | succ i2 =>
      simp only [List.getD_cons_succ] at hold
      simp only [List.set_cons_succ, rowUnchecked, List.countP_cons]
      have := ih i2 (by simpa using hi) hold
      simp only [rowUnchecked] at this
      omega

/-! ## Properties of the fresh-label search (`findFree`) -/

theorem findFreeAux_ge (fuel : Nat) (s : List Nat) (n : Nat) : n ≤ findFreeAux fuel s n := by
  induction fuel generalizing n with
  | zero => simp [findFreeAux]
  | succ k ih =>
    rw [findFreeAux]
    split
    · exact Nat.le_trans (Nat.le_succ n) (ih (n + 1))
    · exact Nat.le_refl n

theorem findFreeAux_min (fuel : Nat) (s : List Nat) (n : Nat) :
    ∀ m, n ≤ m → m < findFreeAux fuel s n → m ∈ s := by
  induction fuel generalizing n with
  | zero => intro m h1 h2; simp [findFreeAux] at h2; omega
  | succ k ih =>
    intro m h1 h2
    rw [findFreeAux] at h2
    by_cases hn : n ∈ s
    · rw [if_pos hn] at h2
      rcases Nat.eq_or_lt_of_le h1 with rfl | hlt
      · exact hn
      · exact ih (n + 1) m hlt h2
    · rw [if_neg hn] at h2; omega

theorem findFreeAux_mem_all (fuel : Nat) (s : List Nat) (n : Nat)
    (h : findFreeAux fuel s n ∈ s) :
    (∀ j < fuel, n + j ∈ s) ∧ findFreeAux fuel s n = n + fuel := by
  induction fuel generalizing n with
  | zero => exact ⟨by omega, by simp [findFreeAux]⟩
  | succ k ih =>
    by_cases hn : n ∈ s
    · have h2 : findFreeAux (k + 1) s n = findFreeAux k s (n + 1) := by
        rw [findFreeAux, if_pos hn]
      rw [h2] at h
      obtain ⟨hall, heq⟩ := ih (n + 1) h
      refine ⟨?_, by rw [h2]; omega⟩
      intro j hj
      cases j with
      | zero => simpa using hn
      | succ j2 =>
        have := hall j2 (by omega)
        have harith : n + 1 + j2 = n + (j2 + 1) := by omega
        rwa [harith] at this
    · rw [findFreeAux, if_neg hn] at h
      exact absurd h hn

/-- The `while (!foundNext)` loop always terminates within `s.length + 1`
probes: the fuelled model never exhausts its fuel, i.e. its result is
genuinely a value not in `s`. -/
theorem findFreeAux_spec (s : List Nat) (n : Nat) : findFreeAux (s.length + 1) s n ∉ s := by
  intro h
  obtain ⟨hall, _⟩ := findFreeAux_mem_all (s.length + 1) s n h
  have hsub : Finset.Icc n (n + s.length) ⊆ s.toFinset := by
    intro m hm
    simp only [Finset.mem_Icc] at hm
    have := hall (m - n) (by omega)
    have hmm : n + (m - n) = m := by omega
    rw [hmm] at this
    exact List.mem_toFinset.mpr this
  have hcard := Finset.card_le_card hsub
  rw [Nat.card_Icc] at hcard
  have := s.toFinset_card_le
  omega

theorem findFree_not_mem (s : List Nat) (n : Nat) : findFree s n ∉ s :=
  findFreeAux_spec s n

theorem findFree_ge (s : List Nat) (n : Nat) : n ≤ findFree s n :=
  findFreeAux_ge (s.length + 1) s n

theorem findFree_min (s : List Nat) (n : Nat) :
    ∀ m, n ≤ m → m < findFree s n → m ∈ s :=
  findFreeAux_min (s.length + 1) s n

/-! ## Claim C4 -/

/-- C4: during the reset phase of `makeRow`, a column that does not
continue a DOWN passage is assigned the label `findFree set num`, found
by scanning forward from the running counter `num` (the most recently
tried label, threaded on to the next column rather than restarted at 1),
and that label is the lowest value `≥ num` not present anywhere in the
Set row at the moment of assignment — in particular it differs from
every label currently live in the row, so no live label is reused. -/
theorem C4_reset_fresh_label (width n : Nat) (set row : List Nat) (num r : Nat)
    (hr : r < width) (hdown : row.getD r 0 &&& DOWN = 0) :
    resetFrom width (n + 1) set row num r =
      resetFrom width n (set.set r (findFree set num)) (row.set r EMPTY)
        (findFree set num) (r + 1) ∧
    findFree set num ∉ set ∧
    num ≤ findFree set num ∧
    ∀ m, num ≤ m → m < findFree set num → m ∈ set := by
  refine ⟨?_, findFree_not_mem set num, findFree_ge set num, findFree_min set num⟩
  rw [resetFrom, if_pos hr, if_neg (not_ne_iff.mpr hdown)]

theorem C4_witness : findFree [7, 9] 1 ∉ ([7, 9] : List Nat) :=
  (C4_reset_fresh_label 2 1 [7, 9] [0, 0] 1 0 (by decide) (by decide)).2.1

/-! ## Claim C3 -/

/-- C3 counterexample: with a previous-row cell lacking RIGHT, a current
cell lacking RIGHT and a non-first row, `outputASCII` prints `"|"` as the
boundary character, while the claim ("otherwise it is an underscore when
the previous row's cell lacks RIGHT and the row is not the first row;
otherwise it is an underscore") predicts `"_"`. -/
theorem C3_counterexample :
    asciiBoundary 0 0 false = "|" ∧ boundaryCharSpecC3 0 0 false = "_" ∧
      asciiBoundary 0 0 false ≠ boundaryCharSpecC3 0 0 false := by
  refine ⟨by decide, by decide, by decide⟩

/-- C3 amended: the boundary character is a space when the previous
row's cell has RIGHT and the current row's cell lacks RIGHT; otherwise
it is a vertical bar when the previous row's cell lacks RIGHT and the
row is not the first row; otherwise it is an underscore. -/
theorem C3_boundary_characterization (p c : Nat) (f : Bool) :
    (asciiBoundary p c f = " " ↔ p &&& RIGHT ≠ 0 ∧ c &&& RIGHT = 0) ∧
    (asciiBoundary p c f = "|" ↔ p &&& RIGHT = 0 ∧ f = false) ∧
    (asciiBoundary p c f = "_" ↔
      (p &&& RIGHT ≠ 0 ∧ c &&& RIGHT ≠ 0) ∨ (p &&& RIGHT = 0 ∧ f = true)) := by
  unfold asciiBoundary
  by_cases hp : p &&& RIGHT = 0 <;> by_cases hc : c &&& RIGHT = 0 <;> cases f <;>
    simp [hp, hc]

/-! ## Claim C1 -/

/-- C1: the solver's exit codes are inverted relative to the claim (and
to the source's own doc comment `@return 1 if there is no path found`).
On a maze whose start `(0, height)` and destination `(width-1, 0)` are
disconnected (here a 1-wide, 2-row grid with no passages), the program
writes the diagnostic to stderr and no maze to stdout but exits 0; on a
solvable maze (a single-cell grid) it writes the marked maze and
exits 1. -/
theorem C1_exit_code_inverted :
    solmazeMain 3 [[0], [0]] [['a']] 1 1 =
      some (none, some "No path found through maze.", 0) ∧
    solmazeMain 2 [[0]] [[' '], ['a', 'b', 'c', 'd', 'e', 'f', 'g', 'h']] 1 0 =
      some (some [[' '], ['a', 'b', 'c', 'd', 'e', 'f', 'X', 'X']], none, 1) := by
  constructor <;> rfl

/-! ## Analysis of `convertRow` (claims C2 and C9) -/

theorem getD_of_len_le {α : Type} (l : List α) (i : Nat) (d : α) (h : l.length ≤ i) :
    l.getD i d = d := by
  induction l generalizing i with
  | nil => simp
  | cons a t ih =>
    cases i with
    | zero => simp at h
    | succ i2 => simpa using ih i2 (by simpa using h)

theorem writeCell_mem (buf : RowBuf) (k : Int) (v : Nat) (j : Int) :
    (writeCell buf k v).mem j = if j = k then v else buf.mem j := rfl

theorem orCell_mem (buf : RowBuf) (k : Int) (v : Nat) (j : Int) :
    (orCell buf k v).mem j = if j = k then buf.mem k ||| v else buf.mem j := rfl

theorem convertRowFrom_zero (a : Option (List Nat)) (b c : List Char) (i : Nat)
    (buf : RowBuf) : convertRowFrom a b c 0 i buf = buf := rfl

/-- One unrolling of the `convertRow` loop. -/
theorem convertRowFrom_succ (a : Option (List Nat)) (b c : List Char) (n i : Nat)
    (buf : RowBuf) :
    convertRowFrom a b c (n + 1) i buf =
      convertRowFrom a b c n (i + 1)
        (let init : Nat :=
          match a with
          | some aRow => if aRow.getD i 0 &&& DOWN ≠ 0 then UP else EMPTY
          | none => EMPTY
         let buf1 := writeCell buf (i : Int) init
         let buf2 :=
           if charAtQ c (i * 3 + BUFFER + 1) ≠ '_' then orCell buf1 (i : Int) DOWN else buf1
         if ¬(charAtQ b (i * 3 + BUFFER) = '|') then
           orCell (orCell buf2 (i : Int) LEFT) ((i : Int) - 1) RIGHT
         else buf2) := rfl

/-- Cells strictly below the loop's write range are never touched. -/
theorem convertRowFrom_mem_low (a : Option (List Nat)) (b c : List Char) :
    ∀ (n i : Nat) (buf : RowBuf) (j : Int), j < (i : Int) - 1 →
      (convertRowFrom a b c n i buf).mem j = buf.mem j := by
  intro n
  induction n with
  | zero => intro i buf j _; rfl
  | succ k ih =>
    intro i buf j hj
    rw [convertRowFrom_succ]
    rw [ih (i + 1) _ j (by push_cast; omega)]
    have hji : j ≠ (i : Int) := by omega
    have hji1 : j ≠ (i : Int) - 1 := by omega
    by_cases hsep : charAtQ b (i * 3 + BUFFER) = '|' <;>
      by_cases hdn : charAtQ c (i * 3 + BUFFER + 1) = '_' <;>
        simp [hsep, hdn, orCell_mem, writeCell_mem, hji, hji1]

/-- The cell one below the loop's next column is touched only by the
sym­metric RIGHT write of that column's separator test. -/
theorem convertRowFrom_mem_edge (a : Option (List Nat)) (b c : List Char) (n i : Nat)
    (buf : RowBuf) :
    (convertRowFrom a b c (n + 1) i buf).mem ((i : Int) - 1) =
      buf.mem ((i : Int) - 1) ||| (if charAtQ b (i * 3 + BUFFER) = '|' then 0 else RIGHT) := by
  rw [convertRowFrom_succ, convertRowFrom_mem_low a b c n (i + 1) _ _ (by push_cast; omega)]
  have h1 : (i : Int) - 1 ≠ (i : Int) := by omega
  by_cases hsep : charAtQ b (i * 3 + BUFFER) = '|' <;>
    by_cases hdn : charAtQ c (i * 3 + BUFFER + 1) = '_' <;>
      simp [hsep, hdn, orCell_mem, writeCell_mem, h1]

/-- Value of a parsed cell: UP continuation from the previous row, DOWN
from line `c`, LEFT from its own separator in line `b`, RIGHT from the
next column's separator (when that column is still processed). -/
theorem convertRowFrom_mem_main (a : Option (List Nat)) (b c : List Char) :
    ∀ (n i j : Nat) (buf : RowBuf), i ≤ j → j < i + n →
      (convertRowFrom a b c n i buf).mem (j : Int) =
        (((match a with
            | some aRow => if aRow.getD j 0 &&& DOWN ≠ 0 then UP else EMPTY
            | none => EMPTY) |||
          (if charAtQ c (j * 3 + BUFFER + 1) = '_' then 0 else DOWN)) |||
         (if charAtQ b (j * 3 + BUFFER) = '|' then 0 else LEFT)) |||
        (if charAtQ b ((j + 1) * 3 + BUFFER) = '|' ∨ ¬(j + 1 < i + n) then 0 else RIGHT) := by
  intro n
  induction n with
  | zero => intro i j buf h1 h2; omega
  | succ k ih =>
    intro i j buf h1 h2
    rw [convertRowFrom_succ]
    rcases Nat.eq_or_lt_of_le h1 with rfl | hlt
    · have hne : (i : Int) - 1 ≠ (i : Int) := by omega
      have hne2 : (i : Int) ≠ (i : Int) - 1 := by omega
      cases k with
      | zero =>
        rw [convertRowFrom_zero]
        have hbound : ¬(i + 1 < i + 1) := by omega
        by_cases hsep : charAtQ b (i * 3 + BUFFER) = '|' <;>
          by_cases hdn : charAtQ c (i * 3 + BUFFER + 1) = '_' <;>
            simp [hsep, hdn, hbound, orCell_mem, writeCell_mem, hne, hne2]
      | succ k2 =>
        have hidx : ((i : Nat) : Int) = (((i + 1 : Nat)) : Int) - 1 := by push_cast; omega
        rw [hidx, convertRowFrom_mem_edge, ← hidx]
        have hbound : i + 1 < i + (k2 + 1 + 1) := by omega
        by_cases hsep : charAtQ b (i * 3 + BUFFER) = '|' <;>
          by_cases hdn : charAtQ c (i * 3 + BUFFER + 1) = '_' <;>
            by_cases hsep2 : charAtQ b ((i + 1) * 3 + BUFFER) = '|' <;>
              simp [hsep, hdn, hsep2, hbound, orCell_mem, writeCell_mem, hne, hne2]
    · rw [ih (i + 1) j _ (by omega) (by omega)]
      have harith : i + 1 + k = i + (k + 1) := by omega
      rw [harith]

/-- The trace of written indices only grows along the loop. -/
theorem convertRowFrom_writes_super (a : Option (List Nat)) (b c : List Char) :
    ∀ (n i : Nat) (buf : RowBuf), buf.writes ⊆ (convertRowFrom a b c n i buf).writes := by
  intro n
  induction n with
  | zero => intro i buf x hx; exact hx
  | succ k ih =>
    intro i buf
    rw [convertRowFrom_succ]
    refine List.Subset.trans ?_ (ih (i + 1) _)
    by_cases hsep : charAtQ b (i * 3 + BUFFER) = '|' <;>
      by_cases hdn : charAtQ c (i * 3 + BUFFER + 1) = '_' <;>
        simp [hsep, hdn, orCell, writeCell] <;>
          intro t ht <;> simp [ht]

/-! ## Claim C9 -/

theorem ite_zero_cases (p : Prop) [Decidable p] (v : Nat) :
    (if p then 0 else v) = 0 ∨ (if p then 0 else v) = v := by
  split
  · exact Or.inl rfl
  · exact Or.inr rfl

theorem upVal_cases (a : Option (List Nat)) (j : Nat) :
    (match a with
     | some aRow => if aRow.getD j 0 &&& DOWN ≠ 0 then UP else EMPTY
     | none => EMPTY) = 0 ∨
    (match a with
     | some aRow => if aRow.getD j 0 &&& DOWN ≠ 0 then UP else EMPTY
     | none => EMPTY) = UP := by
  rcases a with _ | aRow
  · exact Or.inl rfl
  · dsimp only
    split
    · exact Or.inr rfl
    · exact Or.inl rfl

theorem bits_left_iff (u d l t : Nat) (hu : u = 0 ∨ u = UP) (hd : d = 0 ∨ d = DOWN)
    (hl : l = 0 ∨ l = LEFT) (ht : t = 0 ∨ t = RIGHT) :
    (((u ||| d) ||| l) ||| t) &&& LEFT ≠ 0 ↔ l = LEFT := by
  rcases hu with rfl | rfl <;> rcases hd with rfl | rfl <;> rcases hl with rfl | rfl <;>
    rcases ht with rfl | rfl <;> decide

theorem bits_right_iff (u d l t : Nat) (hu : u = 0 ∨ u = UP) (hd : d = 0 ∨ d = DOWN)
    (hl : l = 0 ∨ l = LEFT) (ht : t = 0 ∨ t = RIGHT) :
    (((u ||| d) ||| l) ||| t) &&& RIGHT ≠ 0 ↔ t = RIGHT := by
  rcases hu with rfl | rfl <;> rcases hd with rfl | rfl <;> rcases hl with rfl | rfl <;>
    rcases ht with rfl | rfl <;> decide

theorem bits_down_iff (u d l t : Nat) (hu : u = 0 ∨ u = UP) (hd : d = 0 ∨ d = DOWN)
    (hl : l = 0 ∨ l = LEFT) (ht : t = 0 ∨ t = RIGHT) :
    (((u ||| d) ||| l) ||| t) &&& DOWN ≠ 0 ↔ d = DOWN := by
  rcases hu with rfl | rfl <;> rcases hd with rfl | rfl <;> rcases hl with rfl | rfl <;>
    rcases ht with rfl | rfl <;> decide

/-- C9: in every row produced by the solver's row parser, for every
column `1 ≤ i < width`, the LEFT flag of column `i` holds exactly when
the RIGHT flag of column `i-1` holds: both come from the single
separator character `b[i*3 + BUFFER]` and are applied in the same step,
so they can never disagree. -/
theorem C9_left_right_agree (a : Option (List Nat)) (b c : List Char) (width i : Nat)
    (h1 : 1 ≤ i) (h2 : i < width) :
    ((convertRow a b c width).mem (i : Int) &&& LEFT ≠ 0 ↔
      (convertRow a b c width).mem ((i : Int) - 1) &&& RIGHT ≠ 0) := by
  unfold convertRow
  rw [convertRowFrom_mem_main a b c width 0 i _ (by omega) (by omega)]
  have hidx : ((i : Int)) - 1 = (((i - 1 : Nat)) : Int) := by push_cast [h1]; omega
  rw [hidx, convertRowFrom_mem_main a b c width 0 (i - 1) _ (by omega) (by omega)]
  rw [bits_left_iff _ _ _ _ (upVal_cases a i) (ite_zero_cases _ DOWN) (ite_zero_cases _ LEFT)
      (ite_zero_cases _ RIGHT),
    bits_right_iff _ _ _ _ (upVal_cases a (i - 1)) (ite_zero_cases _ DOWN)
      (ite_zero_cases _ LEFT) (ite_zero_cases _ RIGHT)]
  have hsub : i - 1 + 1 = i := by omega
  rw [hsub]
  by_cases hsep : charAtQ b (i * 3 + BUFFER) = '|'
  · rw [if_pos hsep, if_pos (Or.inl hsep)]
    decide
  · rw [if_neg hsep, if_neg (fun hor => hor.elim hsep (fun hno => hno (by omega)))]
    simp

theorem C9_witness :
    (convertRow none "     |  ab".toList "     |__cd".toList 2).mem (1 : Int) &&& LEFT ≠ 0 ↔
      (convertRow none "     |  ab".toList "     |__cd".toList 2).mem ((1 : Int) - 1) &&&
        RIGHT ≠ 0 :=
  C9_left_right_agree none "     |  ab".toList "     |__cd".toList 2 1 (by decide) (by decide)

/-! ## Claim C2 -/

/-- C2 counterexample: on the truncated input with empty lines `b` and
`c` (shorter than the expected `3*width + BUFFER` characters) and
`width = 1`, the out-of-range reads return the null character, which
differs from `'_'` and `'|'`, so the DOWN flag of column 0 is SET (the
claim says it stays clear, "treated as a solid wall"), and the loop
writes the RIGHT flag to row index `-1` (the claim says no write to
index `-1` ever occurs). -/
theorem C2_counterexample :
    (convertRow none [] [] 1).mem 0 &&& DOWN ≠ 0 ∧
      (-1 : Int) ∈ (convertRow none [] [] 1).writes := by
  constructor
  · decide
  · decide

/-- C2 amended: a character read past the end of a text line is the null
character, which the parser treats as the *absence* of a wall: a too
short line `c` sets DOWN for the affected column, a too short line `b`
sets LEFT, and when line `b` does not reach column 0's separator offset
(index BUFFER) the loop also writes RIGHT to row index `-1`, an
out-of-bounds access.  (Missing data degrades to an over-open grid, not
an over-walled one, and the column-0 write to index `-1` does occur.) -/
theorem C2_truncated_line_behavior (a : Option (List Nat)) (b c : List Char) (width i : Nat)
    (hi : i < width) :
    (c.length ≤ i * 3 + BUFFER + 1 → (convertRow a b c width).mem (i : Int) &&& DOWN ≠ 0) ∧
    (b.length ≤ i * 3 + BUFFER → (convertRow a b c width).mem (i : Int) &&& LEFT ≠ 0) ∧
    (b.length ≤ BUFFER → (-1 : Int) ∈ (convertRow a b c width).writes) := by
  refine ⟨?_, ?_, ?_⟩
  · intro hc
    unfold convertRow
    rw [convertRowFrom_mem_main a b c width 0 i _ (by omega) (by omega)]
    rw [bits_down_iff _ _ _ _ (upVal_cases a i) (ite_zero_cases _ DOWN)
      (ite_zero_cases _ LEFT) (ite_zero_cases _ RIGHT)]
    have hnull : charAtQ c (i * 3 + BUFFER + 1) = Char.ofNat 0 :=
      getD_of_len_le c _ _ hc
    rw [if_neg (by rw [hnull]; decide)]
  · intro hb
    unfold convertRow
    rw [convertRowFrom_mem_main a b c width 0 i _ (by omega) (by omega)]
    rw [bits_left_iff _ _ _ _ (upVal_cases a i) (ite_zero_cases _ DOWN)
      (ite_zero_cases _ LEFT) (ite_zero_cases _ RIGHT)]
    have hnull : charAtQ b (i * 3 + BUFFER) = Char.ofNat 0 :=
      getD_of_len_le b _ _ (by omega)
    rw [if_neg (by rw [hnull]; decide)]
  · intro hb
    unfold convertRow
    cases width with
    | zero => omega
    | succ w =>
      rw [convertRowFrom_succ]
      refine convertRowFrom_writes_super a b c w 1 _ ?_
      have hnull : charAtQ b (0 * 3 + BUFFER) = Char.ofNat 0 :=
        getD_of_len_le b _ _ (by omega)
      rw [if_pos (by rw [hnull]; decide)]
      by_cases hdn : charAtQ c (0 * 3 + BUFFER + 1) = '_' <;>
        simp [hdn, orCell, writeCell]

theorem C2_witness :
    (convertRow (some [2]) ['a'] ['b'] 2).mem (1 : Int) &&& LEFT ≠ 0 :=
  (C2_truncated_line_behavior (some [2]) ['a'] ['b'] 2 1 (by decide)).2.1 (by decide)

/-! ## Specialised flag lemmas -/

theorem orL_andL (x : Nat) : (x ||| LEFT) &&& LEFT ≠ 0 := by
  rw [LEFT_pow]; exact or_pow_and_self x 2

theorem orR_andR (x : Nat) : (x ||| RIGHT) &&& RIGHT ≠ 0 := by
  rw [RIGHT_pow]; exact or_pow_and_self x 3

theorem orD_andD (x : Nat) : (x ||| DOWN) &&& DOWN ≠ 0 := by
  rw [DOWN_pow]; exact or_pow_and_self x 1

theorem orL_andR (x : Nat) : (x ||| LEFT) &&& RIGHT = x &&& RIGHT := by
  rw [LEFT_pow, RIGHT_pow]; exact or_pow_and_other x 2 3 (by norm_num)

theorem orR_andL (x : Nat) : (x ||| RIGHT) &&& LEFT = x &&& LEFT := by
  rw [RIGHT_pow, LEFT_pow]; exact or_pow_and_other x 3 2 (by norm_num)

theorem orD_andL (x : Nat) : (x ||| DOWN) &&& LEFT = x &&& LEFT := by
  rw [DOWN_pow, LEFT_pow]; exact or_pow_and_other x 1 2 (by norm_num)

theorem orD_andR (x : Nat) : (x ||| DOWN) &&& RIGHT = x &&& RIGHT := by
  rw [DOWN_pow, RIGHT_pow]; exact or_pow_and_other x 1 3 (by norm_num)

theorem orL_andD (x : Nat) : (x ||| LEFT) &&& DOWN = x &&& DOWN := by
  rw [LEFT_pow, DOWN_pow]; exact or_pow_and_other x 2 1 (by norm_num)

theorem orR_andD (x : Nat) : (x ||| RIGHT) &&& DOWN = x &&& DOWN := by
  rw [RIGHT_pow, DOWN_pow]; exact or_pow_and_other x 3 1 (by norm_num)

theorem or_or_self (x v : Nat) : (x ||| v) ||| v = x ||| v := by
  rw [Nat.or_assoc, Nat.or_self]

/-! ## Horizontal symmetry invariant of generator rows (claim C10) -/

/-- Transport of the symmetry invariant along a row whose LEFT and RIGHT
bits agree columnwise with the old row. -/
theorem Inv_transfer (width : Nat) (q q2 : List Nat)
    (h : ∀ j, j < width →
      q2.getD j 0 &&& LEFT = q.getD j 0 &&& LEFT ∧
      q2.getD j 0 &&& RIGHT = q.getD j 0 &&& RIGHT)
    (hw : 1 ≤ width)
    (ha : ∀ k, 1 ≤ k → k < width →
      (q.getD k 0 &&& LEFT ≠ 0 ↔ q.getD (k - 1) 0 &&& RIGHT ≠ 0))
    (hb : q.getD 0 0 &&& LEFT = 0) (hc : q.getD (width - 1) 0 &&& RIGHT = 0) :
    (∀ k, 1 ≤ k → k < width →
      (q2.getD k 0 &&& LEFT ≠ 0 ↔ q2.getD (k - 1) 0 &&& RIGHT ≠ 0)) ∧
    q2.getD 0 0 &&& LEFT = 0 ∧ q2.getD (width - 1) 0 &&& RIGHT = 0 := by
  refine ⟨?_, ?_, ?_⟩
  · intro k hk1 hk2
    rw [(h k hk2).1, (h (k - 1) (by omega)).2]
    exact ha k hk1 hk2
  · rw [(h 0 (by omega)).1]; exact hb
  · rw [(h (width - 1) (by omega)).2]; exact hc

/-- Carving a LEFT/RIGHT pair between columns `i-1` and `i` preserves
the symmetry invariant. -/
theorem Inv_pair (width : Nat) (row q2 : List Nat) (i : Nat)
    (h1 : 1 ≤ i) (h2 : i < width)
    (hvals : ∀ j, j < width → q2.getD j 0 =
      if j = i then row.getD i 0 ||| LEFT
      else if j = i - 1 then row.getD (i - 1) 0 ||| RIGHT
      else row.getD j 0)
    (ha : ∀ k, 1 ≤ k → k < width →
      (row.getD k 0 &&& LEFT ≠ 0 ↔ row.getD (k - 1) 0 &&& RIGHT ≠ 0))
    (hb : row.getD 0 0 &&& LEFT = 0) (hc : row.getD (width - 1) 0 &&& RIGHT = 0) :
    (∀ k, 1 ≤ k → k < width →
      (q2.getD k 0 &&& LEFT ≠ 0 ↔ q2.getD (k - 1) 0 &&& RIGHT ≠ 0)) ∧
    q2.getD 0 0 &&& LEFT = 0 ∧ q2.getD (width - 1) 0 &&& RIGHT = 0 := by
  refine ⟨?_, ?_, ?_⟩
  · intro k hk1 hk2
    rw [hvals k hk2, hvals (k - 1) (by omega)]
    by_cases hki : k = i
    · subst hki
      rw [if_pos rfl, if_neg (by omega), if_pos (by omega)]
      constructor
      · intro _; exact orR_andR _
      · intro _; exact orL_andL _
    · by_cases hki1 : k = i + 1
      · subst hki1
        rw [if_neg (by omega), if_neg (by omega), if_pos (by omega)]
        rw [orL_andR]
        exact ha (i + 1) (by omega) hk2
      · by_cases hkim : k = i - 1
        · have hi2 : 2 ≤ i := by omega
          subst hkim
          rw [if_neg (by omega), if_pos rfl, if_neg (by omega), if_neg (by omega)]
          rw [orR_andL]
          exact ha (i - 1) (by omega) (by omega)
        · rw [if_neg hki, if_neg hkim, if_neg (by omega), if_neg (by omega)]
          exact ha k hk1 hk2
  · rw [hvals 0 (by omega)]
    by_cases hi1 : i = 1
    · rw [if_neg (by omega), if_pos (by omega)]
      have : i - 1 = 0 := by omega
      rw [this, orR_andL]
      exact hb
    · rw [if_neg (by omega), if_neg (by omega)]
      exact hb
  · rw [hvals (width - 1) (by omega)]
    by_cases hiw : i = width - 1
    · rw [if_pos (by omega)]
      subst hiw
      rw [orL_andR]
      exact hc
    · rw [if_neg (by omega), if_neg (by omega)]
      exact hc

/-- A row of bare UP/EMPTY cells (the reset phase's output) satisfies
the symmetry invariant. -/
theorem Inv_of_binary (width : Nat) (q : List Nat) (hw : 1 ≤ width)
    (h : ∀ j, j < width → q.getD j 0 = UP ∨ q.getD j 0 = EMPTY) :
    (∀ k, 1 ≤ k → k < width →
      (q.getD k 0 &&& LEFT ≠ 0 ↔ q.getD (k - 1) 0 &&& RIGHT ≠ 0)) ∧
    q.getD 0 0 &&& LEFT = 0 ∧ q.getD (width - 1) 0 &&& RIGHT = 0 := by
  refine ⟨?_, ?_, ?_⟩
  · intro k hk1 hk2
    rcases h k hk2 with hv | hv <;> rcases h (k - 1) (by omega) with hv2 | hv2 <;>
      rw [hv, hv2] <;> decide
  · rcases h 0 (by omega) with hv | hv <;> rw [hv] <;> decide
  · rcases h (width - 1) (by omega) with hv | hv <;> rw [hv] <;> decide

theorem resetFrom_row_length (width : Nat) :
    ∀ (n r : Nat) (set row : List Nat) (num : Nat),
      (resetFrom width n set row num r).2.length = row.length := by
  intro n
  induction n with
  | zero => intro r set row num; rfl
  | succ k ih =>
    intro r set row num
    rw [resetFrom]
    split
    · split
      · rw [ih]; simp
      · rw [ih]; simp
    · rfl

/-- The reset loop does not touch columns below its index. -/
theorem resetFrom_row_lt (width : Nat) :
    ∀ (n r : Nat) (set row : List Nat) (num : Nat) (j : Nat), j < r →
      (resetFrom width n set row num r).2.getD j 0 = row.getD j 0 := by
  intro n
  induction n with
  | zero => intro r set row num j _; rfl
  | succ k ih =>
    intro r set row num j hj
    rw [resetFrom]
    split
    · split
      · rw [ih (r + 1) _ _ _ j (by omega), getD_set_ne _ _ _ _ _ (by omega)]
      · show (resetFrom width k (set.set r (findFree set num)) (row.set r EMPTY)
            (findFree set num) (r + 1)).2.getD j 0 = row.getD j 0
        rw [ih (r + 1) _ _ _ j (by omega), getD_set_ne _ _ _ _ _ (by omega)]
    · rfl

/-- After the reset phase, every processed column holds UP or EMPTY. -/
theorem resetFrom_cells (width : Nat) :
    ∀ (n r : Nat) (set row : List Nat) (num : Nat), r + n = width → row.length = width →
      ∀ j, r ≤ j → j < width →
        (resetFrom width n set row num r).2.getD j 0 = UP ∨
        (resetFrom width n set row num r).2.getD j 0 = EMPTY := by
  intro n
  induction n with
  | zero => intro r set row num hn _ j h1 h2; omega
  | succ k ih =>
    intro r set row num hn hlen j h1 h2
    have hr : r < width := by omega
    rw [resetFrom, if_pos hr]
    split
    · rcases Nat.eq_or_lt_of_le h1 with heq | hlt
      · subst heq
        left
        rw [resetFrom_row_lt width k (r + 1) _ _ _ r (by omega)]
        rw [getD_set_self _ _ _ _ (by omega)]
      · exact ih (r + 1) _ _ _ (by omega) (by simp [hlen]) j (by omega) h2
    · rcases Nat.eq_or_lt_of_le h1 with heq | hlt
      · subst heq
        right
        show (resetFrom width k (set.set r (findFree set num)) (row.set r EMPTY)
            (findFree set num) (r + 1)).2.getD r 0 = EMPTY
        rw [resetFrom_row_lt width k (r + 1) _ _ _ r (by omega)]
        rw [getD_set_self _ _ _ _ (by omega)]
      · exact ih (r + 1) _ _ _ (by omega) (by simp [hlen]) j (by omega) h2

/-- The horizontal carve of phase 2 (LEFT at `i`, RIGHT at `i-1`)
preserves the symmetry invariant. -/
theorem Inv_set_pair (width : Nat) (row : List Nat) (i : Nat)
    (hlen : row.length = width) (h1 : 1 ≤ i) (h2 : i < width)
    (ha : ∀ k, 1 ≤ k → k < width →
      (row.getD k 0 &&& LEFT ≠ 0 ↔ row.getD (k - 1) 0 &&& RIGHT ≠ 0))
    (hb : row.getD 0 0 &&& LEFT = 0) (hc : row.getD (width - 1) 0 &&& RIGHT = 0) :
    ((row.set i (row.getD i 0 ||| LEFT)).set (i - 1)
        ((row.set i (row.getD i 0 ||| LEFT)).getD (i - 1) 0 ||| RIGHT)).length = width ∧
    (∀ k, 1 ≤ k → k < width →
      (((row.set i (row.getD i 0 ||| LEFT)).set (i - 1)
          ((row.set i (row.getD i 0 ||| LEFT)).getD (i - 1) 0 ||| RIGHT)).getD k 0 &&&
          LEFT ≠ 0 ↔
        ((row.set i (row.getD i 0 ||| LEFT)).set (i - 1)
          ((row.set i (row.getD i 0 ||| LEFT)).getD (i - 1) 0 ||| RIGHT)).getD (k - 1) 0 &&&
          RIGHT ≠ 0)) ∧
    ((row.set i (row.getD i 0 ||| LEFT)).set (i - 1)
        ((row.set i (row.getD i 0 ||| LEFT)).getD (i - 1) 0 ||| RIGHT)).getD 0 0 &&&
        LEFT = 0 ∧
    ((row.set i (row.getD i 0 ||| LEFT)).set (i - 1)
        ((row.set i (row.getD i 0 ||| LEFT)).getD (i - 1) 0 ||| RIGHT)).getD (width - 1) 0 &&&
        RIGHT = 0 := by
  have hinner : (row.set i (row.getD i 0 ||| LEFT)).getD (i - 1) 0 = row.getD (i - 1) 0 :=
    getD_set_ne _ _ _ _ _ (by omega)
  refine ⟨by simp [hlen], ?_⟩
  refine Inv_pair width row _ i h1 h2 ?_ ha hb hc
  intro j hj
  by_cases hji : j = i
  · subst hji
    rw [if_pos rfl, getD_set_ne _ _ _ _ _ (by omega), getD_set_self _ _ _ _ (by omega)]
  · by_cases hjm : j = i - 1
    · subst hjm
      rw [if_neg hji, if_pos rfl, getD_set_self _ _ _ _ (by simp; omega), hinner]
    · rw [if_neg hji, if_neg hjm, getD_set_ne _ _ _ _ _ (by omega),
        getD_set_ne _ _ _ _ _ (by omega)]

/-- ORing DOWN into one cell preserves the symmetry invariant. -/
theorem Inv_set_down (width : Nat) (q : List Nat) (i : Nat) (hw : 1 ≤ width)
    (ha : ∀ k, 1 ≤ k → k < width →
      (q.getD k 0 &&& LEFT ≠ 0 ↔ q.getD (k - 1) 0 &&& RIGHT ≠ 0))
    (hb : q.getD 0 0 &&& LEFT = 0) (hc : q.getD (width - 1) 0 &&& RIGHT = 0) :
    (∀ k, 1 ≤ k → k < width →
      ((q.set i (q.getD i 0 ||| DOWN)).getD k 0 &&& LEFT ≠ 0 ↔
        (q.set i (q.getD i 0 ||| DOWN)).getD (k - 1) 0 &&& RIGHT ≠ 0)) ∧
    (q.set i (q.getD i 0 ||| DOWN)).getD 0 0 &&& LEFT = 0 ∧
    (q.set i (q.getD i 0 ||| DOWN)).getD (width - 1) 0 &&& RIGHT = 0 := by
  refine Inv_transfer width q _ ?_ hw ha hb hc
  intro j hj
  by_cases hji : i = j
  · subst hji
    by_cases hin : i < q.length
    · rw [getD_set_self _ _ _ _ hin, orD_andL, orD_andR]
      exact ⟨rfl, rfl⟩
    · rw [List.set_eq_of_length_le (by omega)]
      exact ⟨rfl, rfl⟩
  · rw [getD_set_ne _ _ _ _ _ hji]
    exact ⟨rfl, rfl⟩

/-- Phase 2 preserves the symmetry invariant (single step). -/
theorem carveStep_preserves (flips : Nat → Bool) (isLast : Bool) (set row : List Nat)
    (i width : Nat) (hlen : row.length = width) (hi : i < width)
    (ha : ∀ k, 1 ≤ k → k < width →
      (row.getD k 0 &&& LEFT ≠ 0 ↔ row.getD (k - 1) 0 &&& RIGHT ≠ 0))
    (hb : row.getD 0 0 &&& LEFT = 0) (hc : row.getD (width - 1) 0 &&& RIGHT = 0) :
    (carveStep flips isLast set row i).2.length = width ∧
    (∀ k, 1 ≤ k → k < width →
      ((carveStep flips isLast set row i).2.getD k 0 &&& LEFT ≠ 0 ↔
        (carveStep flips isLast set row i).2.getD (k - 1) 0 &&& RIGHT ≠ 0)) ∧
    (carveStep flips isLast set row i).2.getD 0 0 &&& LEFT = 0 ∧
    (carveStep flips isLast set row i).2.getD (width - 1) 0 &&& RIGHT = 0 := by
  have hw : 1 ≤ width := by omega
  unfold carveStep
  by_cases hf : flips (2 * i) = true
  · by_cases hg : 0 < i ∧ set.getD i 0 ≠ set.getD (i - 1) 0
    · rw [if_pos hf, if_pos hg]
      obtain ⟨hQl, hQa, hQb, hQc⟩ := Inv_set_pair width row i hlen (by omega) hi ha hb hc
      dsimp only
      split
      · exact ⟨by simp [hlen], (Inv_set_down width _ i hw hQa hQb hQc)⟩
      · exact ⟨hQl, hQa, hQb, hQc⟩
    · rw [if_pos hf, if_neg hg]
      dsimp only
      split
      · exact ⟨by simp [hlen], (Inv_set_down width _ i hw ha hb hc)⟩
      · exact ⟨hlen, ha, hb, hc⟩
  · rw [if_neg hf]
    dsimp only
    split
    · exact ⟨by simp [hlen], (Inv_set_down width _ i hw ha hb hc)⟩
    · exact ⟨hlen, ha, hb, hc⟩

/-- Phase 2 preserves the symmetry invariant (whole loop). -/
theorem carveFrom_preserves (flips : Nat → Bool) (isLast : Bool) (width : Nat) :
    ∀ (n i : Nat) (set row : List Nat), row.length = width → 1 ≤ width →
    (∀ k, 1 ≤ k → k < width →
      (row.getD k 0 &&& LEFT ≠ 0 ↔ row.getD (k - 1) 0 &&& RIGHT ≠ 0)) →
    row.getD 0 0 &&& LEFT = 0 → row.getD (width - 1) 0 &&& RIGHT = 0 →
    (carveFrom flips isLast width n set row i).2.length = width ∧
    (∀ k, 1 ≤ k → k < width →
      ((carveFrom flips isLast width n set row i).2.getD k 0 &&& LEFT ≠ 0 ↔
        (carveFrom flips isLast width n set row i).2.getD (k - 1) 0 &&& RIGHT ≠ 0)) ∧
    (carveFrom flips isLast width n set row i).2.getD 0 0 &&& LEFT = 0 ∧
    (carveFrom flips isLast width n set row i).2.getD (width - 1) 0 &&& RIGHT = 0 := by
  intro n
  induction n with
  | zero => intro i set row hlen hw ha hb hc; exact ⟨hlen, ha, hb, hc⟩
  | succ k ih =>
    intro i set row hlen hw ha hb hc
    rw [carveFrom]
    split
    · obtain ⟨hQl, hQa, hQb, hQc⟩ :=
        carveStep_preserves flips isLast set row i width hlen (by assumption) ha hb hc
      exact ih (i + 1) _ _ hQl hw hQa hQb hQc
    · exact ⟨hlen, ha, hb, hc⟩

/-- Phase 3 only ever ORs DOWN into a cell. -/
theorem forceDownFrom_shape (width : Nat) :
    ∀ (n : Nat) (set row : List Nat) (r j : Nat),
      (forceDownFrom width n set row r).getD j 0 = row.getD j 0 ∨
      (forceDownFrom width n set row r).getD j 0 = row.getD j 0 ||| DOWN := by
  intro n
  induction n with
  | zero => intro set row r j; exact Or.inl rfl
  | succ k ih =>
    intro set row r j
    rw [forceDownFrom]
    split
    · split
      · exact ih set row (r + 1) j
      · split
        · exact ih set row (r + 1) j
        · rcases ih set (row.set r (row.getD r 0 ||| DOWN)) (r + 1) j with h | h
          · by_cases hrj : r = j
            · subst hrj
              by_cases hin : r < row.length
              · rw [h, getD_set_self _ _ _ _ hin]; exact Or.inr rfl
              · rw [h, List.set_eq_of_length_le (by omega)]; exact Or.inl rfl
            · rw [h, getD_set_ne _ _ _ _ _ hrj]; exact Or.inl rfl
          · by_cases hrj : r = j
            · subst hrj
              by_cases hin : r < row.length
              · rw [h, getD_set_self _ _ _ _ hin, or_or_self]; exact Or.inr rfl
              · rw [h, List.set_eq_of_length_le (by omega)]; exact Or.inr rfl
            · rw [h, getD_set_ne _ _ _ _ _ hrj]; exact Or.inr rfl
    · exact Or.inl rfl

/-- Phase 4 preserves the symmetry invariant. -/
theorem closeLastFrom_preserves (width : Nat) :
    ∀ (n : Nat) (set row : List Nat) (r : Nat), row.length = width → 1 ≤ width →
    (∀ k, 1 ≤ k → k < width →
      (row.getD k 0 &&& LEFT ≠ 0 ↔ row.getD (k - 1) 0 &&& RIGHT ≠ 0)) →
    row.getD 0 0 &&& LEFT = 0 → row.getD (width - 1) 0 &&& RIGHT = 0 →
    (closeLastFrom width n set row r).2.length = width ∧
    (∀ k, 1 ≤ k → k < width →
      ((closeLastFrom width n set row r).2.getD k 0 &&& LEFT ≠ 0 ↔
        (closeLastFrom width n set row r).2.getD (k - 1) 0 &&& RIGHT ≠ 0)) ∧
    (closeLastFrom width n set row r).2.getD 0 0 &&& LEFT = 0 ∧
    (closeLastFrom width n set row r).2.getD (width - 1) 0 &&& RIGHT = 0 := by
  intro n
  induction n with
  | zero => intro set row r hlen hw ha hb hc; exact ⟨hlen, ha, hb, hc⟩
  | succ k ih =>
    intro set row r hlen hw ha hb hc
    rw [closeLastFrom]
    split
    · split
      · exact ih _ _ (r + 1) hlen hw ha hb hc
      · have hr1 : r + 1 < width := by omega
        have hvals : ∀ j, j < width →
            ((row.set r (row.getD r 0 ||| RIGHT)).set (r + 1)
              ((row.set r (row.getD r 0 ||| RIGHT)).getD (r + 1) 0 ||| LEFT)).getD j 0 =
            if j = r + 1 then row.getD (r + 1) 0 ||| LEFT
            else if j = r + 1 - 1 then row.getD (r + 1 - 1) 0 ||| RIGHT
            else row.getD j 0 := by
          intro j hj
          by_cases hj1 : j = r + 1
          · subst hj1
            rw [if_pos rfl, getD_set_self _ _ _ _ (by simp; omega),
              getD_set_ne _ _ _ _ _ (by omega)]
          · by_cases hj0 : j = r
            · subst hj0
              rw [if_neg hj1, if_pos (by omega), getD_set_ne _ _ _ _ _ (by omega),
                getD_set_self _ _ _ _ (by omega)]
              simp
            · rw [if_neg hj1, if_neg (by omega), getD_set_ne _ _ _ _ _ (by omega),
                getD_set_ne _ _ _ _ _ (by omega)]
        obtain ⟨hQa, hQb, hQc⟩ := Inv_pair width row _ (r + 1) (by omega) hr1 hvals ha hb hc
        exact ih _ _ (r + 1) (by simp [hlen]) hw hQa hQb hQc
    · exact ⟨hlen, ha, hb, hc⟩

/-! ## Claim C10 -/

/-- C10: every row `makeRow` produces (final or not) has symmetric
horizontal passages — LEFT of column `i` holds exactly when RIGHT of
column `i-1` holds for `1 ≤ i < width` — and column 0 never has LEFT,
column `width-1` never has RIGHT. -/
theorem C10_row_symmetry (flips : Nat → Bool) (isLast : Bool) (width : Nat)
    (set row : List Nat) (hlen : row.length = width) (hw : 1 ≤ width) :
    (∀ i, 1 ≤ i → i < width →
      ((makeRow flips isLast width set row).2.getD i 0 &&& LEFT ≠ 0 ↔
        (makeRow flips isLast width set row).2.getD (i - 1) 0 &&& RIGHT ≠ 0)) ∧
    (makeRow flips isLast width set row).2.getD 0 0 &&& LEFT = 0 ∧
    (makeRow flips isLast width set row).2.getD (width - 1) 0 &&& RIGHT = 0 := by
  unfold makeRow
  obtain ⟨h1a, h1b, h1c⟩ := Inv_of_binary width (resetFrom width width set row 1 0).2 hw
    (fun j hj => resetFrom_cells width width 0 set row 1 (by omega) hlen j (by omega) hj)
  have h1len : (resetFrom width width set row 1 0).2.length = width := by
    rw [resetFrom_row_length]; exact hlen
  obtain ⟨h2len, h2a, h2b, h2c⟩ := carveFrom_preserves flips isLast width width 0
    (resetFrom width width set row 1 0).1 (resetFrom width width set row 1 0).2
    h1len hw h1a h1b h1c
  dsimp only
  split
  · obtain ⟨h3len, h3a, h3b, h3c⟩ := closeLastFrom_preserves width width _ _ 0 h2len hw h2a h2b h2c
    exact ⟨h3a, h3b, h3c⟩
  · refine ⟨?_, ?_, ?_⟩
    · intro i hi1 hi2
      have hsh1 := forceDownFrom_shape width width (carveFrom flips isLast width width
        (resetFrom width width set row 1 0).1 (resetFrom width width set row 1 0).2 0).1
        (carveFrom flips isLast width width (resetFrom width width set row 1 0).1
          (resetFrom width width set row 1 0).2 0).2 0 i
      have hsh2 := forceDownFrom_shape width width (carveFrom flips isLast width width
        (resetFrom width width set row 1 0).1 (resetFrom width width set row 1 0).2 0).1
        (carveFrom flips isLast width width (resetFrom width width set row 1 0).1
          (resetFrom width width set row 1 0).2 0).2 0 (i - 1)
      rcases hsh1 with h | h <;> rcases hsh2 with h2 | h2 <;> rw [h, h2] <;>
        first
          | exact h2a i hi1 hi2
          | (simp only [orD_andL, orD_andR]; exact h2a i hi1 hi2)
    · have hsh := forceDownFrom_shape width width (carveFrom flips isLast width width
        (resetFrom width width set row 1 0).1 (resetFrom width width set row 1 0).2 0).1
        (carveFrom flips isLast width width (resetFrom width width set row 1 0).1
          (resetFrom width width set row 1 0).2 0).2 0 0
      rcases hsh with h | h <;> rw [h]
      · exact h2b
      · rw [orD_andL]; exact h2b
    · have hsh := forceDownFrom_shape width width (carveFrom flips isLast width width
        (resetFrom width width set row 1 0).1 (resetFrom width width set row 1 0).2 0).1
        (carveFrom flips isLast width width (resetFrom width width set row 1 0).1
          (resetFrom width width set row 1 0).2 0).2 0 (width - 1)
      rcases hsh with h | h <;> rw [h]
      · exact h2c
      · rw [orD_andR]; exact h2c

/-! ## Claim C5: phase 3 forces every set downward exactly once -/

theorem setHasDown_iff (width : Nat) (set row : List Nat) (mset : Nat) :
    setHasDown width set row mset = true ↔
      ∃ i, i < width ∧ set.getD i 0 = mset ∧ row.getD i 0 &&& DOWN ≠ 0 := by
  unfold setHasDown
  rw [List.any_eq_true]
  constructor
  · rintro ⟨i, hi, hp⟩
    rw [List.mem_range] at hi
    rw [Bool.and_eq_true, beq_iff_eq, bne_iff_ne] at hp
    exact ⟨i, hi, hp.1, hp.2⟩
  · rintro ⟨i, hi, h1, h2⟩
    refine ⟨i, List.mem_range.mpr hi, ?_⟩
    rw [Bool.and_eq_true, beq_iff_eq, bne_iff_ne]
    exact ⟨h1, h2⟩

theorem forceDownFrom_length (width : Nat) :
    ∀ (n : Nat) (set row : List Nat) (r : Nat),
      (forceDownFrom width n set row r).length = row.length := by
  intro n
  induction n with
  | zero => intro set row r; rfl
  | succ k ih =>
    intro set row r
    rw [forceDownFrom]
    split
    · split
      · exact ih set row (r + 1)
      · split
        · exact ih set row (r + 1)
        · rw [ih]; simp
    · rfl

/-- Once some column of set `L` goes down, phase 3 leaves every column
of `L` untouched (`goDown` is always false for them). -/
theorem forceDownFrom_sat (width : Nat) (L : Nat) :
    ∀ (n : Nat) (set row : List Nat) (r jw : Nat), jw < width →
      set.getD jw 0 = L → row.getD jw 0 &&& DOWN ≠ 0 →
      ∀ i, set.getD i 0 = L →
        (forceDownFrom width n set row r).getD i 0 = row.getD i 0 := by
  intro n
  induction n with
  | zero => intro set row r jw _ _ _ i _; rfl
  | succ k ih =>
    intro set row r jw hjw hjL hjD i hiL
    rw [forceDownFrom]
    split
    · split
      · exact ih set row (r + 1) jw hjw hjL hjD i hiL
      · split
        · exact ih set row (r + 1) jw hjw hjL hjD i hiL
        · rename_i hno
          have hrL : set.getD r 0 ≠ L := by
            intro hr
            exact hno (by rw [hr]; exact (setHasDown_iff width set row L).mpr ⟨jw, hjw, hjL, hjD⟩)
          have hjr : jw ≠ r := fun h => hrL (h ▸ hjL)
          have hir : i ≠ r := fun h => hrL (h ▸ hiL)
          rw [ih (set) (row.set r (row.getD r 0 ||| DOWN)) (r + 1) jw hjw hjL
            (by rw [getD_set_ne _ _ _ _ _ (fun h => hjr h.symm)]; exact hjD) i hiL]
          rw [getD_set_ne _ _ _ _ _ (fun h => hir h.symm)]
    · rfl

/-- If no column of set `L` goes down when phase 3 starts, DOWN is
forced exactly on the first column of `L` (scanned left to right), and
the other columns of `L` are left unchanged. -/
theorem forceDownFrom_first (width L : Nat) :
    ∀ (n : Nat) (set row : List Nat) (r r0 : Nat), r + n = width → row.length = width →
      r ≤ r0 → r0 < width → set.getD r0 0 = L →
      (∀ i, i < r0 → set.getD i 0 ≠ L) →
      (∀ i, i < width → set.getD i 0 = L → row.getD i 0 &&& DOWN = 0) →
      (forceDownFrom width n set row r).getD r0 0 = row.getD r0 0 ||| DOWN ∧
      (∀ i, i < width → set.getD i 0 = L → i ≠ r0 →
        (forceDownFrom width n set row r).getD i 0 = row.getD i 0) := by
  intro n
  induction n with
  | zero => intro set row r r0 hn _ hle hr0 _ _ _; omega
  | succ k ih =>
    intro set row r r0 hn hlen hle hr0w hr0L hfirst hall
    have hrw : r < width := by omega
    rw [forceDownFrom, if_pos hrw]
    split
    · rename_i hD
      rcases Nat.eq_or_lt_of_le hle with heq | hlt
      · subst heq
        exact absurd (hall r hr0w hr0L) hD
      · exact ih set row (r + 1) r0 (by omega) hlen (by omega) hr0w hr0L hfirst hall
    · split
      · rename_i hsd
        rcases Nat.eq_or_lt_of_le hle with heq | hlt
        · subst heq
          rw [hr0L] at hsd
          obtain ⟨i, hi, hiL, hiD⟩ := (setHasDown_iff width set row L).mp hsd
          exact absurd (hall i hi hiL) hiD
        · exact ih set row (r + 1) r0 (by omega) hlen (by omega) hr0w hr0L hfirst hall
      · rcases Nat.eq_or_lt_of_le hle with heq | hlt
        · subst heq
          have hself : (row.set r (row.getD r 0 ||| DOWN)).getD r 0 =
              row.getD r 0 ||| DOWN := getD_set_self _ _ _ _ (by omega)
          have hsat := forceDownFrom_sat width L k set
            (row.set r (row.getD r 0 ||| DOWN)) (r + 1) r hr0w hr0L
            (by rw [hself]; exact orD_andD _)
          constructor
          · rw [hsat r hr0L, hself]
          · intro i hi hiL hir
            rw [hsat i hiL, getD_set_ne _ _ _ _ _ (fun h => hir h.symm)]
        · have hrL : set.getD r 0 ≠ L := hfirst r hlt
          have hall2 : ∀ i, i < width → set.getD i 0 = L →
              (row.set r (row.getD r 0 ||| DOWN)).getD i 0 &&& DOWN = 0 := by
            intro i hi hiL
            have hir : i ≠ r := fun h => hrL (h ▸ hiL)
            rw [getD_set_ne _ _ _ _ _ (fun h => hir h.symm)]
            exact hall i hi hiL
          obtain ⟨h1, h2⟩ := ih set (row.set r (row.getD r 0 ||| DOWN)) (r + 1) r0
            (by omega) (by simp [hlen]) (by omega) hr0w hr0L hfirst hall2
          constructor
          · rw [h1, getD_set_ne _ _ _ _ _ (by omega)]
          · intro i hi hiL hir
            have hirr : i ≠ r := fun h => hrL (h ▸ hiL)
            rw [h2 i hi hiL hir, getD_set_ne _ _ _ _ _ (fun h => hirr h.symm)]

theorem carveStep_row_length (flips : Nat → Bool) (isLast : Bool) (set row : List Nat)
    (i : Nat) : (carveStep flips isLast set row i).2.length = row.length := by
  unfold carveStep
  dsimp only
  by_cases hf : flips (2 * i) = true
  · by_cases hg : 0 < i ∧ set.getD i 0 ≠ set.getD (i - 1) 0
    · rw [if_pos hf, if_pos hg]
      by_cases hv : flips (2 * i + 1) = true ∧ isLast = false
      · rw [if_pos hv]; simp
      · rw [if_neg hv]; simp
    · rw [if_pos hf, if_neg hg]
      by_cases hv : flips (2 * i + 1) = true ∧ isLast = false
      · rw [if_pos hv]; simp
      · rw [if_neg hv]
  · rw [if_neg hf]
    by_cases hv : flips (2 * i + 1) = true ∧ isLast = false
    · rw [if_pos hv]; simp
    · rw [if_neg hv]

theorem carveFrom_row_length (flips : Nat → Bool) (isLast : Bool) (width : Nat) :
    ∀ (n i : Nat) (set row : List Nat),
      (carveFrom flips isLast width n set row i).2.length = row.length := by
  intro n
  induction n with
  | zero => intro i set row; rfl
  | succ k ih =>
    intro i set row
    rw [carveFrom]
    split
    · rw [ih, carveStep_row_length]
    · rfl

/-- C5: after `makeRow` on a non-final row, every set label present in
the Set row has some column going DOWN; and phase 3, started on a state
where set `L` has no DOWN column, forces DOWN on exactly the first
column of `L` scanned left to right, leaving every other column of `L`
without DOWN. -/
theorem C5_forced_connectivity (flips : Nat → Bool) (width : Nat) (set row : List Nat)
    (L : Nat) (hlen : row.length = width) :
    ((∃ i, i < width ∧ (makeRow flips false width set row).1.getD i 0 = L) →
      ∃ j, j < width ∧ (makeRow flips false width set row).1.getD j 0 = L ∧
        (makeRow flips false width set row).2.getD j 0 &&& DOWN ≠ 0) ∧
    (∀ (set2 row2 : List Nat) (r0 : Nat), row2.length = width → r0 < width →
      set2.getD r0 0 = L → (∀ i, i < r0 → set2.getD i 0 ≠ L) →
      (∀ i, i < width → set2.getD i 0 = L → row2.getD i 0 &&& DOWN = 0) →
      (forceDownFrom width width set2 row2 0).getD r0 0 &&& DOWN ≠ 0 ∧
      ∀ i, i < width → set2.getD i 0 = L → i ≠ r0 →
        (forceDownFrom width width set2 row2 0).getD i 0 &&& DOWN = 0) := by
  constructor
  · have hmk : makeRow flips false width set row =
        ((carveFrom flips false width width (resetFrom width width set row 1 0).1
            (resetFrom width width set row 1 0).2 0).1,
         forceDownFrom width width
           (carveFrom flips false width width (resetFrom width width set row 1 0).1
             (resetFrom width width set row 1 0).2 0).1
           (carveFrom flips false width width (resetFrom width width set row 1 0).1
             (resetFrom width width set row 1 0).2 0).2 0) := rfl
    rw [hmk]
    dsimp only
    intro hlive
    by_cases hsd : setHasDown width
        (carveFrom flips false width width (resetFrom width width set row 1 0).1
          (resetFrom width width set row 1 0).2 0).1
        (carveFrom flips false width width (resetFrom width width set row 1 0).1
          (resetFrom width width set row 1 0).2 0).2 L = true
    · obtain ⟨j, hj, hjL, hjD⟩ := (setHasDown_iff width _ _ L).mp hsd
      refine ⟨j, hj, hjL, ?_⟩
      rcases forceDownFrom_shape width width
          (carveFrom flips false width width (resetFrom width width set row 1 0).1
            (resetFrom width width set row 1 0).2 0).1
          (carveFrom flips false width width (resetFrom width width set row 1 0).1
            (resetFrom width width set row 1 0).2 0).2 0 j with h | h <;> rw [h]
      · exact hjD
      · exact orD_andD _
    · have hall : ∀ i, i < width →
          (carveFrom flips false width width (resetFrom width width set row 1 0).1
            (resetFrom width width set row 1 0).2 0).1.getD i 0 = L →
          (carveFrom flips false width width (resetFrom width width set row 1 0).1
            (resetFrom width width set row 1 0).2 0).2.getD i 0 &&& DOWN = 0 := by
        intro i hi hiL
        by_contra hne
        exact hsd ((setHasDown_iff width _ _ L).mpr ⟨i, hi, hiL, hne⟩)
      have hp2len : (carveFrom flips false width width (resetFrom width width set row 1 0).1
          (resetFrom width width set row 1 0).2 0).2.length = width := by
        rw [carveFrom_row_length, resetFrom_row_length]
        exact hlen
      have hmin : ∀ i, i < Nat.find hlive →
          (carveFrom flips false width width (resetFrom width width set row 1 0).1
            (resetFrom width width set row 1 0).2 0).1.getD i 0 ≠ L := by
        have hfw := (Nat.find_spec hlive).1
        intro i hi hiL
        exact Nat.find_min hlive hi ⟨by omega, hiL⟩
      obtain ⟨hfd1, _⟩ := forceDownFrom_first width L width _ _ 0 (Nat.find hlive)
        (by omega) hp2len (by omega) (Nat.find_spec hlive).1 (Nat.find_spec hlive).2
        hmin hall
      refine ⟨Nat.find hlive, (Nat.find_spec hlive).1, (Nat.find_spec hlive).2, ?_⟩
      rw [hfd1]
      exact orD_andD _
  · intro set2 row2 r0 hlen2 hr0w hr0L hfirst hall
    obtain ⟨h1, h2⟩ := forceDownFrom_first width L width set2 row2 0 r0 (by omega) hlen2
      (by omega) hr0w hr0L hfirst hall
    constructor
    · rw [h1]; exact orD_andD _
    · intro i hi hiL hir
      rw [h2 i hi hiL hir]
      exact hall i hi hiL

theorem C5_witness :
    (∃ j, j < 1 ∧ (makeRow (fun _ => false) false 1 [5] [0]).1.getD j 0 = 1 ∧
      (makeRow (fun _ => false) false 1 [5] [0]).2.getD j 0 &&& DOWN ≠ 0) ∧
    ((forceDownFrom 1 1 [5] [0] 0).getD 0 0 &&& DOWN ≠ 0) := by
  have h := C5_forced_connectivity (fun _ => false) 1 [5] [0] 1 (by decide)
  have h5 := C5_forced_connectivity (fun _ => false) 1 [5] [0] 5 (by decide)
  constructor
  · exact h.1 ⟨0, by decide, by decide⟩
  · exact (h5.2 [5] [0] 0 (by decide) (by decide) (by decide)
      (by intro i hi; omega) (by intro i hi hiL; interval_cases i <;> decide)).1

/-! ## Claim C6: final-row closure merges everything into one set -/

theorem unionSet_length (s : List Nat) (a b : Nat) : (unionSet s a b).length = s.length := by
  simp [unionSet]

theorem unionSet_getD (s : List Nat) (a b : Nat) (j : Nat) (hj : j < s.length) :
    (unionSet s a b).getD j 0 = if s.getD j 0 = b then a else s.getD j 0 := by
  induction s generalizing j with
  | nil => simp at hj
  | cons x t ih =>
    cases j with
    | zero => simp [unionSet]
    | succ j2 =>
      simp only [unionSet, List.map_cons, List.getD_cons_succ]
      exact ih j2 (by simpa using hj)

theorem resetFrom_set_length (width : Nat) :
    ∀ (n r : Nat) (set row : List Nat) (num : Nat),
      (resetFrom width n set row num r).1.length = set.length := by
  intro n
  induction n with
  | zero => intro r set row num; rfl
  | succ k ih =>
    intro r set row num
    rw [resetFrom]
    split
    · split
      · exact ih (r + 1) _ _ _
      · show (resetFrom width k (set.set r (findFree set num)) (row.set r EMPTY)
            (findFree set num) (r + 1)).1.length = set.length
        rw [ih]; simp
    · rfl

theorem carveStep_set_length (flips : Nat → Bool) (isLast : Bool) (set row : List Nat)
    (i : Nat) : (carveStep flips isLast set row i).1.length = set.length := by
  unfold carveStep
  dsimp only
  by_cases hf : flips (2 * i) = true
  · by_cases hg : 0 < i ∧ set.getD i 0 ≠ set.getD (i - 1) 0
    · rw [if_pos hf, if_pos hg]
      exact unionSet_length _ _ _
    · rw [if_pos hf, if_neg hg]
  · rw [if_neg hf]

theorem carveFrom_set_length (flips : Nat → Bool) (isLast : Bool) (width : Nat) :
    ∀ (n i : Nat) (set row : List Nat),
      (carveFrom flips isLast width n set row i).1.length = set.length := by
  intro n
  induction n with
  | zero => intro i set row; rfl
  | succ k ih =>
    intro i set row
    rw [carveFrom]
    split
    · rw [ih, carveStep_set_length]
    · rfl

/-- Phase 4 leaves all of columns `0..width-1` carrying one common set
label, given that columns `0..r` already agree. -/
theorem closeLastFrom_all_eq (width : Nat) (hw : 1 ≤ width) :
    ∀ (n : Nat) (set row : List Nat) (r : Nat), r + n = width → set.length = width →
      r ≤ width - 1 →
      (∀ j, j ≤ r → set.getD j 0 = set.getD r 0) →
      ∀ i j, i < width → j < width →
        (closeLastFrom width n set row r).1.getD i 0 =
          (closeLastFrom width n set row r).1.getD j 0 := by
  intro n
  induction n with
  | zero => intro set row r hn _ hr _ i j _ _; omega
  | succ k ih =>
    intro set row r hn hlen hr hpre i j hi hj
    rw [closeLastFrom]
    split
    · split
      · rename_i hlt heq
        refine ih set row (r + 1) (by omega) hlen (by omega) ?_ i j hi hj
        intro j2 hj2
        rcases Nat.eq_or_lt_of_le hj2 with hje | hjl
        · rw [hje]
        · rw [hpre j2 (by omega), heq]
      · rename_i hlt hne
        refine ih _ _ (r + 1) (by omega) (by rw [unionSet_length]; exact hlen) (by omega)
          ?_ i j hi hj
        intro j2 hj2
        have hv : ∀ m, m ≤ r + 1 → (unionSet set (set.getD (r + 1) 0) (set.getD r 0)).getD m 0 =
            set.getD (r + 1) 0 := by
          intro m hm
          rw [unionSet_getD _ _ _ m (by omega)]
          rcases Nat.eq_or_lt_of_le hm with hme | hml
          · rw [hme, if_neg (fun hc => hne hc.symm)]
          · rw [hpre m (by omega), if_pos rfl]
        rw [hv j2 hj2, hv (r + 1) (by omega)]
    · rename_i hge
      have hreq : r = width - 1 := by omega
      calc (set, row).1.getD i 0 = set.getD r 0 := hpre i (by omega)
        _ = (set, row).1.getD j 0 := (hpre j (by omega)).symm

/-- A flag already set in a row cell survives the rest of phase 4. -/
theorem set_or_bit_persist (l : List Nat) (i w j k : Nat)
    (h : l.getD j 0 &&& 2 ^ k ≠ 0) :
    (l.set i (l.getD i 0 ||| w)).getD j 0 &&& 2 ^ k ≠ 0 := by
  rw [getD_set]
  split
  · rename_i hc
    obtain ⟨heq, _⟩ := hc
    subst heq
    exact or_preserves_pow _ _ _ h
  · exact h

theorem closeLastFrom_bit_persist (width : Nat) :
    ∀ (n : Nat) (set row : List Nat) (r j k : Nat),
      row.getD j 0 &&& 2 ^ k ≠ 0 →
      (closeLastFrom width n set row r).2.getD j 0 &&& 2 ^ k ≠ 0 := by
  intro n
  induction n with
  | zero => intro set row r j k h; exact h
  | succ m ih =>
    intro set row r j k h
    rw [closeLastFrom]
    split
    · split
      · exact ih set row (r + 1) j k h
      · exact ih _ _ (r + 1) j k (set_or_bit_persist _ _ _ _ _ (set_or_bit_persist _ _ _ _ _ h))
    · exact h

/-- C6: after `makeRow` on the final row all columns carry one common
set label; and whenever phase 4 scans an adjacent pair in different
sets, the produced row carries the forced RIGHT/LEFT passage between
them. -/
theorem C6_final_row_closure (flips : Nat → Bool) (width : Nat) (set row : List Nat)
    (hset : set.length = width) (hrow : row.length = width) (hw : 1 ≤ width) :
    (∀ i j, i < width → j < width →
      (makeRow flips true width set row).1.getD i 0 =
        (makeRow flips true width set row).1.getD j 0) ∧
    (∀ (n : Nat) (set2 row2 : List Nat) (r : Nat), row2.length = width → r < width - 1 →
      set2.getD r 0 ≠ set2.getD (r + 1) 0 →
      (closeLastFrom width (n + 1) set2 row2 r).2.getD r 0 &&& RIGHT ≠ 0 ∧
      (closeLastFrom width (n + 1) set2 row2 r).2.getD (r + 1) 0 &&& LEFT ≠ 0) := by
  constructor
  · have hmk : makeRow flips true width set row =
        closeLastFrom width width
          (carveFrom flips true width width (resetFrom width width set row 1 0).1
            (resetFrom width width set row 1 0).2 0).1
          (carveFrom flips true width width (resetFrom width width set row 1 0).1
            (resetFrom width width set row 1 0).2 0).2 0 := rfl
    rw [hmk]
    have hslen : (carveFrom flips true width width (resetFrom width width set row 1 0).1
        (resetFrom width width set row 1 0).2 0).1.length = width := by
      rw [carveFrom_set_length, resetFrom_set_length]
      exact hset
    exact closeLastFrom_all_eq width hw width _ _ 0 (by omega) hslen (by omega)
      (fun j hj => by rw [Nat.le_zero.mp hj])
  · intro n set2 row2 r hlen2 hr hne
    rw [closeLastFrom, if_pos hr, if_neg hne]
    constructor
    · rw [RIGHT_pow]
      refine closeLastFrom_bit_persist width n _ _ (r + 1) r 3 ?_
      rw [getD_set_ne _ _ _ _ _ (by omega), getD_set_self _ _ _ _ (by omega)]
      rw [← RIGHT_pow]
      exact orR_andR _
    · rw [LEFT_pow]
      refine closeLastFrom_bit_persist width n _ _ (r + 1) (r + 1) 2 ?_
      rw [getD_set_self _ _ _ _ (by simp; omega)]
      rw [← LEFT_pow]
      exact orL_andL _

theorem C6_witness :
    (makeRow (fun _ => false) true 2 [1, 2] [0, 0]).1.getD 0 0 =
      (makeRow (fun _ => false) true 2 [1, 2] [0, 0]).1.getD 1 0 ∧
    (closeLastFrom 2 2 [1, 2] [0, 0] 0).2.getD 0 0 &&& RIGHT ≠ 0 := by
  have h := C6_final_row_closure (fun _ => false) 2 [1, 2] [0, 0] (by decide) (by decide)
    (by decide)
  exact ⟨h.1 0 1 (by decide) (by decide),
    (h.2 1 [1, 2] [0, 0] 0 (by decide) (by decide) (by decide)).1⟩

theorem C10_witness :
    ((makeRow (fun k => k % 2 == 0) false 2 [7, 9] [0, 2]).2.getD 1 0 &&& LEFT ≠ 0 ↔
      (makeRow (fun k => k % 2 == 0) false 2 [7, 9] [0, 2]).2.getD 0 0 &&& RIGHT ≠ 0) ∧
    (makeRow (fun k => k % 2 == 0) false 2 [7, 9] [0, 2]).2.getD 0 0 &&& LEFT = 0 ∧
    (makeRow (fun k => k % 2 == 0) false 2 [7, 9] [0, 2]).2.getD 1 0 &&& RIGHT = 0 := by
  have h := C10_row_symmetry (fun k => k % 2 == 0) false 2 [7, 9] [0, 2] (by decide) (by decide)
  exact ⟨h.1 1 (by decide) (by decide), h.2.1, h.2.2⟩

/-! ## Solver: evolution relation algebra (claims C7 and C8) -/

theorem orC_andU (x : Nat) : (x ||| CHECKED) &&& UP = x &&& UP := by
  rw [CHECKED_pow, UP_pow]; exact or_pow_and_other x 5 0 (by norm_num)

theorem orC_andD (x : Nat) : (x ||| CHECKED) &&& DOWN = x &&& DOWN := by
  rw [CHECKED_pow, DOWN_pow]; exact or_pow_and_other x 5 1 (by norm_num)

theorem orC_andL (x : Nat) : (x ||| CHECKED) &&& LEFT = x &&& LEFT := by
  rw [CHECKED_pow, LEFT_pow]; exact or_pow_and_other x 5 2 (by norm_num)

theorem orC_andR (x : Nat) : (x ||| CHECKED) &&& RIGHT = x &&& RIGHT := by
  rw [CHECKED_pow, RIGHT_pow]; exact or_pow_and_other x 5 3 (by norm_num)

theorem orC_andC (x : Nat) : (x ||| CHECKED) &&& CHECKED ≠ 0 := by
  rw [CHECKED_pow]; exact or_pow_and_self x 5

theorem getD_lt {α : Type} (l : List α) (i : Nat) (d : α) (h : i < l.length) :
    l.getD i d = l.get ⟨i, h⟩ := by
  simp [List.getD_eq_getElem?_getD, List.getElem?_eq_getElem h, List.get_eq_getElem]

theorem CellRel_refl (c : Nat) : CellRel c c := Or.inl rfl

theorem CellRel_trans (a b c : Nat) (h1 : CellRel a b) (h2 : CellRel b c) : CellRel a c := by
  rcases h1 with rfl | rfl
  · exact h2
  · rcases h2 with rfl | rfl
    · exact Or.inr rfl
    · exact Or.inr (or_or_self a CHECKED)

theorem CellRel_checked (a b : Nat) (h : CellRel a b) (ha : a &&& CHECKED ≠ 0) :
    b &&& CHECKED ≠ 0 := by
  rcases h with rfl | rfl
  · exact ha
  · exact orC_andC a

theorem RowsRel_refl (rs : List (List Nat)) : RowsRel rs rs :=
  List.forall₂_same.mpr fun r _ => List.forall₂_same.mpr fun c _ => CellRel_refl c

theorem RowsRel_trans (a b c : List (List Nat)) (h1 : RowsRel a b) (h2 : RowsRel b c) :
    RowsRel a c := by
  rw [RowsRel, List.forall₂_iff_get] at h1 h2 ⊢
  obtain ⟨hl1, hp1⟩ := h1
  obtain ⟨hl2, hp2⟩ := h2
  refine ⟨hl1.trans hl2, ?_⟩
  intro i ha hc
  have hb : i < b.length := by omega
  have g1 := hp1 i ha hb
  have g2 := hp2 i hb hc
  rw [List.forall₂_iff_get] at g1 g2 ⊢
  refine ⟨g1.1.trans g2.1, ?_⟩
  intro j j1 j2
  exact CellRel_trans _ _ _ (g1.2 j j1 (by omega)) (g2.2 j (by omega) j2)

theorem RowsRel_length (rs rs2 : List (List Nat)) (h : RowsRel rs rs2) :
    rs2.length = rs.length := h.length_eq.symm

theorem RowsRel_rowLength (rs rs2 : List (List Nat)) (h : RowsRel rs rs2) (yi : Nat) :
    (rs2.getD yi []).length = (rs.getD yi []).length := by
  rw [RowsRel, List.forall₂_iff_get] at h
  obtain ⟨hl, hp⟩ := h
  by_cases hy : yi < rs.length
  · have hy2 : yi < rs2.length := by omega
    rw [getD_lt rs yi [] hy, getD_lt rs2 yi [] hy2]
    exact (hp yi hy hy2).length_eq.symm
  · rw [getD_of_len_le rs yi [] (by omega), getD_of_len_le rs2 yi [] (by omega)]

theorem RowsRel_cell (rs rs2 : List (List Nat)) (h : RowsRel rs rs2) (yi xi : Nat) :
    CellRel ((rs.getD yi []).getD xi 0) ((rs2.getD yi []).getD xi 0) := by
  have hrl := RowsRel_rowLength rs rs2 h yi
  rw [RowsRel, List.forall₂_iff_get] at h
  obtain ⟨hl, hp⟩ := h
  by_cases hy : yi < rs.length
  · have hy2 : yi < rs2.length := by omega
    have hrow := hp yi hy hy2
    rw [List.forall₂_iff_get] at hrow
    obtain ⟨hrowl, hrowp⟩ := hrow
    by_cases hx : xi < (rs.getD yi []).length
    · have hget1 : rs.getD yi [] = rs.get ⟨yi, hy⟩ := getD_lt rs yi [] hy
      have hget2 : rs2.getD yi [] = rs2.get ⟨yi, hy2⟩ := getD_lt rs2 yi [] hy2
      have hx1 : xi < (rs.get ⟨yi, hy⟩).length := by rw [← hget1]; exact hx
      have hx2 : xi < (rs2.get ⟨yi, hy2⟩).length := by omega
      rw [hget1, hget2, getD_lt _ xi 0 hx1, getD_lt _ xi 0 hx2]
      exact hrowp xi hx1 hx2
    · rw [getD_of_len_le _ xi 0 (by omega), getD_of_len_le _ xi 0 (by omega)]
      exact CellRel_refl 0
  · rw [getD_of_len_le rs yi [] (by omega), getD_of_len_le rs2 yi [] (by omega)]
    exact CellRel_refl _

theorem MRel_refl (m : Maze) : MRel m m := ⟨RowsRel_refl m.rows, rfl, rfl, rfl⟩

theorem MRel_trans (a b c : Maze) (h1 : MRel a b) (h2 : MRel b c) : MRel a c :=
  ⟨RowsRel_trans _ _ _ h1.1 h2.1, h2.2.1.trans h1.2.1, h2.2.2.1.trans h1.2.2.1,
    h2.2.2.2.trans h1.2.2.2⟩

/-! ### Pointwise behaviour of `setCell`, `cellAt`, `setI` -/

theorem getI_nonneg {α : Type} (l : List α) (i : Int) (d : α) (h : 0 ≤ i) :
    getI l i d = l.getD i.toNat d := by
  unfold getI; rw [if_pos h]

theorem cellAt_nat (rows : List (List Nat)) (xi yi : Nat) :
    cellAt rows (xi : Int) (yi : Int) = (rows.getD yi []).getD xi 0 := by
  unfold cellAt
  rw [getI_nonneg _ _ _ (by omega), getI_nonneg _ _ _ (by omega)]
  simp

theorem setI_length {α : Type} (l : List α) (i : Int) (v : α) :
    (setI l i v).length = l.length := by
  unfold setI; split <;> simp

theorem setI_getD {α : Type} (l : List α) (idx : Int) (v : α) (i : Nat) (d : α) :
    (setI l idx v).getD i d = if (i : Int) = idx ∧ i < l.length then v else l.getD i d := by
  unfold setI
  by_cases h0 : 0 ≤ idx
  · rw [if_pos h0, getD_set]
    by_cases hc : idx.toNat = i ∧ i < l.length
    · rw [if_pos hc, if_pos ⟨by omega, hc.2⟩]
    · rw [if_neg hc, if_neg (by omega)]
  · rw [if_neg h0, if_neg (by omega)]

theorem setCell_length (rows : List (List Nat)) (x y : Int) (v : Nat) :
    (setCell rows x y v).length = rows.length := setI_length _ _ _

theorem cellAt_setCell (rows : List (List Nat)) (x y : Int) (v : Nat) (x2 y2 : Int) :
    cellAt (setCell rows x y v) x2 y2 =
      if x2 = x ∧ y2 = y ∧ 0 ≤ x ∧ 0 ≤ y ∧ y.toNat < rows.length ∧
          x.toNat < (rows.getD y.toNat []).length
      then v else cellAt rows x2 y2 := by
  unfold cellAt setCell
  by_cases hy2 : 0 ≤ y2
  · rw [getI_nonneg _ _ _ hy2, getI_nonneg _ _ _ hy2, setI_getD]
    by_cases hyc : (y2.toNat : Int) = y ∧ y2.toNat < rows.length
    · rw [if_pos hyc]
      have hyy : y2 = y := by omega
      have hytn : y.toNat = y2.toNat := by omega
      have hroweq : rows.getD y.toNat [] = rows.getD y2.toNat [] := by rw [hytn]
      by_cases hx2 : 0 ≤ x2
      · rw [getI_nonneg _ _ _ hx2, getI_nonneg _ _ _ hx2, setI_getD]
        rw [getI_nonneg _ _ _ (by omega), hytn]
        by_cases hxc : (x2.toNat : Int) = x ∧ x2.toNat < (rows.getD y2.toNat []).length
        · rw [if_pos hxc, if_pos ⟨by omega, hyy, by omega, by omega, by omega, by omega⟩]
        · rw [if_neg hxc, if_neg ?_]
          rintro ⟨he1, he2, hp1, hp2, hl1, hl2⟩
          have hhl : (rows.getD y.toNat []).length = (rows.getD y2.toNat []).length := by
            rw [hroweq]
          exact hxc ⟨by omega, by omega⟩
      · have hcond : ¬(x2 = x ∧ y2 = y ∧ 0 ≤ x ∧ 0 ≤ y ∧ y.toNat < rows.length ∧
            x.toNat < (rows.getD y.toNat []).length) := by
          rintro ⟨rfl, -, hp1, -⟩
          omega
        rw [if_neg hcond]
        unfold getI
        rw [if_neg hx2, if_neg hx2]
    · rw [if_neg hyc]
      rw [if_neg ?_]
      rintro ⟨he1, rfl, hp1, hp2, hl1, hl2⟩
      exact hyc ⟨by omega, by omega⟩
  · have hcond : ¬(x2 = x ∧ y2 = y ∧ 0 ≤ x ∧ 0 ≤ y ∧ y.toNat < rows.length ∧
        x.toNat < (rows.getD y.toNat []).length) := by
      rintro ⟨-, rfl, -, hp2, -⟩
      omega
    rw [if_neg hcond]
    unfold getI
    rw [if_neg hy2, if_neg hy2]

theorem setCell_rowLength (rows : List (List Nat)) (x y : Int) (v : Nat) (yi : Nat) :
    ((setCell rows x y v).getD yi []).length = (rows.getD yi []).length := by
  unfold setCell
  rw [setI_getD]
  split
  · rename_i hc
    obtain ⟨hc1, hc2⟩ := hc
    rw [setI_length, getI_nonneg _ _ _ (by omega)]
    have hyt : y.toNat = yi := by omega
    rw [hyt]
  · rfl

theorem rowsRel_of_getD (rs rs2 : List (List Nat))
    (hlen : rs2.length = rs.length)
    (hrow : ∀ yi, (rs2.getD yi []).length = (rs.getD yi []).length)
    (hcell : ∀ yi xi, CellRel ((rs.getD yi []).getD xi 0) ((rs2.getD yi []).getD xi 0)) :
    RowsRel rs rs2 := by
  rw [RowsRel, List.forall₂_iff_get]
  refine ⟨hlen.symm, ?_⟩
  intro i h1 h2
  rw [List.forall₂_iff_get]
  have hre1 : rs.get ⟨i, h1⟩ = rs.getD i [] := (getD_lt rs i [] h1).symm
  have hre2 : rs2.get ⟨i, h2⟩ = rs2.getD i [] := (getD_lt rs2 i [] h2).symm
  rw [hre1, hre2]
  refine ⟨(hrow i).symm, ?_⟩
  intro j j1 j2
  have hcl := hcell i j
  rw [getD_lt _ j 0 j1, getD_lt _ j 0 j2] at hcl
  exact hcl

theorem setCell_rel (rows : List (List Nat)) (x y : Int) :
    RowsRel rows (setCell rows x y (cellAt rows x y ||| CHECKED)) := by
  refine rowsRel_of_getD _ _ (setCell_length rows x y _) (setCell_rowLength rows x y _) ?_
  intro yi xi
  have hnew : ((setCell rows x y (cellAt rows x y ||| CHECKED)).getD yi []).getD xi 0 =
      cellAt (setCell rows x y (cellAt rows x y ||| CHECKED)) (xi : Int) (yi : Int) :=
    (cellAt_nat _ xi yi).symm
  rw [hnew, cellAt_setCell]
  split
  · rename_i hc
    obtain ⟨he1, he2, _⟩ := hc
    right
    rw [← he1, ← he2, cellAt_nat]
  · left
    rw [cellAt_nat]

theorem markMaze_rel (m : Maze) (x y : Int) : MRel m (markMaze m x y) :=
  ⟨setCell_rel m.rows x y, rfl, rfl, rfl⟩

theorem solutionCell_rel (m : Maze) (x y : Int) : MRel m (solutionCell m x y) :=
  ⟨RowsRel_refl _, rfl, rfl, rfl⟩

theorem rowUnchecked_rel (r r2 : List Nat) (h : List.Forall₂ CellRel r r2) :
    rowUnchecked r2 ≤ rowUnchecked r := by
  induction h with
  | nil => exact Nat.le_refl 0
  | @cons a b l1 l2 hc ht ih =>
    unfold rowUnchecked at ih ⊢
    rw [List.countP_cons, List.countP_cons]
    have hcell : (if (b &&& CHECKED == 0) = true then 1 else 0) ≤
        (if (a &&& CHECKED == 0) = true then 1 else 0) := by
      rcases hc with rfl | rfl
      · exact Nat.le_refl _
      · rw [if_neg (by simpa using orC_andC a)]
        exact Nat.zero_le _
    omega

theorem uncheckedCount_rel (rs rs2 : List (List Nat)) (h : RowsRel rs rs2) :
    uncheckedCount rs2 ≤ uncheckedCount rs := by
  induction h with
  | nil => exact Nat.le_refl 0
  | @cons a b l1 l2 hc ht ih =>
    unfold uncheckedCount at ih ⊢
    rw [List.map_cons, List.map_cons, List.sum_cons, List.sum_cons]
    exact Nat.add_le_add (rowUnchecked_rel _ _ hc) ih

theorem markMaze_cell (m : Maze) (x y : Int) (hR : Rect m) (hI : InGrid m x y) :
    cellAt (markMaze m x y).rows x y = cellAt m.rows x y ||| CHECKED := by
  obtain ⟨hx0, hxw, hy0, hyh⟩ := hI
  have hyt : y.toNat < m.rows.length := by omega
  have hrowlen : (m.rows.getD y.toNat []).length = m.width := by
    rw [getD_lt _ _ _ hyt]
    exact hR _ (List.get_mem m.rows _ _)
  unfold markMaze
  dsimp only
  rw [cellAt_setCell, if_pos ⟨rfl, rfl, hx0, hy0, hyt, by omega⟩]

theorem uncheckedCount_mark (m : Maze) (x y : Int) (hR : Rect m) (hI : InGrid m x y)
    (hun : cellAt m.rows x y &&& CHECKED = 0) :
    uncheckedCount (markMaze m x y).rows + 1 = uncheckedCount m.rows := by
  obtain ⟨hx0, hxw, hy0, hyh⟩ := hI
  have hyt : y.toNat < m.rows.length := by omega
  have hrowlen : (m.rows.getD y.toNat []).length = m.width := by
    rw [getD_lt _ _ _ hyt]
    exact hR _ (List.get_mem m.rows _ _)
  have hxt : x.toNat < (m.rows.getD y.toNat []).length := by omega
  have hsetCell : (markMaze m x y).rows =
      m.rows.set y.toNat ((m.rows.getD y.toNat []).set x.toNat
        (cellAt m.rows x y ||| CHECKED)) := by
    unfold markMaze setCell setI
    dsimp only
    rw [if_pos hy0, if_pos hx0, getI_nonneg _ _ _ hy0]
  rw [hsetCell]
  unfold uncheckedCount
  rw [List.map_set]
  have hsum := sum_set_nat (m.rows.map rowUnchecked) y.toNat
    (rowUnchecked ((m.rows.getD y.toNat []).set x.toNat (cellAt m.rows x y ||| CHECKED)))
    (by simpa using hyt)
  have hgetmap := getD_map_rowUnchecked m.rows y.toNat hyt
  have hrow := rowUnchecked_set (m.rows.getD y.toNat []) x.toNat
    (cellAt m.rows x y ||| CHECKED) hxt ?_ ?_
  · omega
  · have hx' : ((x.toNat : Nat) : Int) = x := by omega
    have hy' : ((y.toNat : Nat) : Int) = y := by omega
    rw [← cellAt_nat, hx', hy']
    exact hun
  · exact orC_andC _

theorem Rect_rel (m m2 : Maze) (h : MRel m m2) (hR : Rect m) : Rect m2 := by
  intro r hr
  obtain ⟨n, hn⟩ := List.mem_iff_get.mp hr
  have hlen := RowsRel_rowLength _ _ h.1 n.1
  have hLen := RowsRel_length _ _ h.1
  rw [← hn, (getD_lt _ _ _ n.2).symm, hlen, h.2.1]
  have hn1 : n.1 < m.rows.length := by have := n.2; omega
  rw [getD_lt _ _ _ hn1]
  exact hR _ (List.get_mem m.rows _ _)

theorem InGrid_rel (m m2 : Maze) (h : MRel m m2) (x y : Int) (hI : InGrid m x y) :
    InGrid m2 x y := by
  obtain ⟨h1, h2, h3, h4⟩ := hI
  have hLen := RowsRel_length _ _ h.1
  refine ⟨h1, ?_, h3, ?_⟩
  · rw [h.2.1]; exact h2
  · omega

theorem Closed_rel (m m2 : Maze) (h : MRel m m2) (hC : ClosedGrid m) : ClosedGrid m2 := by
  intro yi hyi xi hxi
  have hLen := RowsRel_length _ _ h.1
  have hyi2 : yi < m.rows.length := by omega
  have hxi2 : xi < m.width := by rw [← h.2.1]; exact hxi
  obtain ⟨c1, c2, c3, c4⟩ := hC yi hyi2 xi hxi2
  have hcell := RowsRel_cell _ _ h.1 yi xi
  rcases hcell with he | he <;> rw [he]
  · refine ⟨fun hh => c1 hh, fun hh => ?_, fun hh => c3 hh, fun hh => ?_⟩
    · rw [h.2.1]; exact c2 hh
    · have := c4 hh; omega
  · rw [orC_andL, orC_andR, orC_andU, orC_andD]
    refine ⟨fun hh => c1 hh, fun hh => ?_, fun hh => c3 hh, fun hh => ?_⟩
    · rw [h.2.1]; exact c2 hh
    · have := c4 hh; omega

theorem closed_step (m : Maze) (x y : Int) (hR : Rect m) (hC : ClosedGrid m)
    (hI : InGrid m x y) :
    (cellAt m.rows x y &&& LEFT ≠ 0 → InGrid m (x - 1) y) ∧
    (cellAt m.rows x y &&& RIGHT ≠ 0 → InGrid m (x + 1) y) ∧
    (cellAt m.rows x y &&& UP ≠ 0 → InGrid m x (y - 1)) ∧
    (cellAt m.rows x y &&& DOWN ≠ 0 → InGrid m x (y + 1)) := by
  obtain ⟨hx0, hxw, hy0, hyh⟩ := hI
  have hyt : y.toNat < m.rows.length := by omega
  have hxt : x.toNat < m.width := by omega
  have hcell : cellAt m.rows x y = (m.rows.getD y.toNat []).getD x.toNat 0 := by
    unfold cellAt
    rw [getI_nonneg _ _ _ hx0, getI_nonneg _ _ _ hy0]
  obtain ⟨c1, c2, c3, c4⟩ := hC y.toNat hyt x.toNat hxt
  rw [hcell]
  refine ⟨fun hh => ?_, fun hh => ?_, fun hh => ?_, fun hh => ?_⟩
  · have := c1 hh; exact ⟨by omega, by omega, hy0, hyh⟩
  · have := c2 hh; exact ⟨by omega, by omega, hy0, hyh⟩
  · have := c3 hh; exact ⟨hx0, hxw, by omega, by omega⟩
  · have := c4 hh; exact ⟨hx0, hxw, by omega, by omega⟩

/-! ### Unfolding lemmas for `solveMaze` and `andThen` -/

theorem solveMaze_zero (m : Maze) (x y : Int) (fr : Nat) : solveMaze 0 m x y fr = none := rfl

theorem solveMaze_checked (fuel : Nat) (m : Maze) (x y : Int) (fr : Nat)
    (h : cellAt m.rows x y &&& CHECKED ≠ 0) :
    solveMaze (fuel + 1) m x y fr = some (m, false) := by
  rw [solveMaze]
  dsimp only
  rw [if_pos h]

theorem solveMaze_dest (fuel : Nat) (m : Maze) (x y : Int) (fr : Nat)
    (h0 : cellAt m.rows x y &&& CHECKED = 0) (hd : x = m.destX ∧ y = m.destY) :
    solveMaze (fuel + 1) m x y fr = some (solutionCell (markMaze m x y) x y, true) := by
  rw [solveMaze]
  dsimp only
  rw [if_neg (not_ne_iff.mpr h0), if_pos hd]

theorem solveMaze_step (fuel : Nat) (m : Maze) (x y : Int) (fr : Nat)
    (h0 : cellAt m.rows x y &&& CHECKED = 0) (hd : ¬(x = m.destX ∧ y = m.destY)) :
    solveMaze (fuel + 1) m x y fr =
      match andThen (andThen (andThen
          (if fr ≠ RIGHT ∧ cellAt m.rows x y &&& LEFT ≠ 0 then
            solveMaze fuel (markMaze m x y) (x - 1) y LEFT
           else some (markMaze m x y, false))
          (fun m2 => if fr ≠ DOWN ∧ cellAt m.rows x y &&& UP ≠ 0 then
            solveMaze fuel m2 x (y - 1) UP
           else some (m2, false)))
          (fun m3 => if fr ≠ UP ∧ cellAt m.rows x y &&& DOWN ≠ 0 then
            solveMaze fuel m3 x (y + 1) DOWN
           else some (m3, false)))
          (fun m4 => if fr ≠ LEFT ∧ cellAt m.rows x y &&& RIGHT ≠ 0 then
            solveMaze fuel m4 (x + 1) y RIGHT
           else some (m4, false)) with
      | none => none
      | some (m5, b) => if b then some (solutionCell m5 x y, true) else some (m5, false) := by
  rw [solveMaze]
  dsimp only
  rw [if_neg (not_ne_iff.mpr h0), if_neg hd]

theorem andThen_none (k : Maze → Option (Maze × Bool)) : andThen none k = none := rfl

theorem andThen_true (m : Maze) (k : Maze → Option (Maze × Bool)) :
    andThen (some (m, true)) k = some (m, true) := rfl

theorem andThen_false (m : Maze) (k : Maze → Option (Maze × Bool)) :
    andThen (some (m, false)) k = k m := rfl

theorem andThen_rel (P : Maze → Prop) (o : Option (Maze × Bool))
    (k : Maze → Option (Maze × Bool))
    (horel : ∀ mm bb, o = some (mm, bb) → P mm)
    (hk : ∀ mm mm2 bb, P mm → k mm = some (mm2, bb) → P mm2) :
    ∀ mm2 bb, andThen o k = some (mm2, bb) → P mm2 := by
  intro mm2 bb he
  rcases o with _ | ⟨mm, b0⟩
  · rw [andThen_none] at he
    exact absurd he (by simp)
  · cases b0
    · rw [andThen_false] at he
      exact hk mm mm2 bb (horel mm false rfl) he
    · rw [andThen_true] at he
      simp only [Option.some_inj, Prod.mk.injEq] at he
      rw [← he.1]
      exact horel mm true rfl

theorem andThen_props (P : Maze → Prop) (o : Option (Maze × Bool))
    (k : Maze → Option (Maze × Bool))
    (ho : o ≠ none) (horel : ∀ mm bb, o = some (mm, bb) → P mm)
    (hk : ∀ mm, P mm → (k mm ≠ none ∧ ∀ mm2 bb, k mm = some (mm2, bb) → P mm2)) :
    andThen o k ≠ none ∧ ∀ mm2 bb, andThen o k = some (mm2, bb) → P mm2 := by
  refine ⟨?_, andThen_rel P o k horel (fun mm mm2 bb hp he => (hk mm hp).2 mm2 bb he)⟩
  rcases o with _ | ⟨mm, b0⟩
  · exact absurd rfl ho
  · cases b0
    · rw [andThen_false]
      exact (hk mm (horel mm false rfl)).1
    · rw [andThen_true]
      simp

/-! ### Text-shape preservation -/

theorem solutionCell_rows (m : Maze) (x y : Int) : (solutionCell m x y).rows = m.rows := rfl

theorem markMaze_txt (m : Maze) (x y : Int) : (markMaze m x y).txt = m.txt := rfl

theorem solutionCell_txt_shape (m : Maze) (x y : Int) :
    (solutionCell m x y).txt.length = m.txt.length ∧
    ∀ i, ((solutionCell m x y).txt.getD i []).length = (m.txt.getD i []).length := by
  unfold solutionCell
  dsimp only
  refine ⟨setI_length _ _ _, ?_⟩
  intro i
  rw [setI_getD]
  split
  · rename_i hc
    obtain ⟨hc1, hc2⟩ := hc
    rw [setI_length, setI_length, getI_nonneg _ _ _ (by omega)]
    have hit : (y * 2 + 1).toNat = i := by omega
    rw [hit]
  · rfl

/-- Master evolution lemma: a successful (or failed) search run only
adds CHECKED flags to grid cells, preserves the dimensions, the
destination and the shape of the text lines; and when the entry cell was
unchecked, the whole run factors through the marked maze. -/
theorem solveMaze_evolution : ∀ (fuel : Nat) (m : Maze) (x y : Int) (fr : Nat)
    (m2 : Maze) (b : Bool), solveMaze fuel m x y fr = some (m2, b) →
    (MRel m m2 ∧ m2.txt.length = m.txt.length ∧
      ∀ i, (m2.txt.getD i []).length = (m.txt.getD i []).length) ∧
    (cellAt m.rows x y &&& CHECKED = 0 → MRel (markMaze m x y) m2) := by
  intro fuel
  induction fuel with
  | zero =>
    intro m x y fr m2 b h
    rw [solveMaze_zero] at h
    exact absurd h (by simp)
  | succ k ih =>
    intro m x y fr m2 b h
    by_cases hch : cellAt m.rows x y &&& CHECKED ≠ 0
    · rw [solveMaze_checked k m x y fr hch] at h
      simp only [Option.some_inj, Prod.mk.injEq] at h
      rw [← h.1]
      exact ⟨⟨MRel_refl m, rfl, fun _ => rfl⟩, fun h0 => absurd h0 hch⟩
    · have hch0 : cellAt m.rows x y &&& CHECKED = 0 := not_ne_iff.mp hch
      by_cases hd : x = m.destX ∧ y = m.destY
      · rw [solveMaze_dest k m x y fr hch0 hd] at h
        simp only [Option.some_inj, Prod.mk.injEq] at h
        rw [← h.1]
        obtain ⟨hs1, hs2⟩ := solutionCell_txt_shape (markMaze m x y) x y
        refine ⟨⟨MRel_trans _ _ _ (markMaze_rel m x y) (solutionCell_rel _ x y),
          ?_, ?_⟩, fun _ => solutionCell_rel _ x y⟩
        · rw [hs1, markMaze_txt]
        · intro i
          rw [hs2 i, markMaze_txt]
      · rw [solveMaze_step k m x y fr hch0 hd] at h
        have hrel4 : ∀ mm2 bb,
            andThen (andThen (andThen
              (if fr ≠ RIGHT ∧ cellAt m.rows x y &&& LEFT ≠ 0 then
                solveMaze k (markMaze m x y) (x - 1) y LEFT
               else some (markMaze m x y, false))
              (fun mm => if fr ≠ DOWN ∧ cellAt m.rows x y &&& UP ≠ 0 then
                solveMaze k mm x (y - 1) UP
               else some (mm, false)))
              (fun mm => if fr ≠ UP ∧ cellAt m.rows x y &&& DOWN ≠ 0 then
                solveMaze k mm x (y + 1) DOWN
               else some (mm, false)))
              (fun mm => if fr ≠ LEFT ∧ cellAt m.rows x y &&& RIGHT ≠ 0 then
                solveMaze k mm (x + 1) y RIGHT
               else some (mm, false)) = some (mm2, bb) →
            (MRel (markMaze m x y) mm2 ∧
              mm2.txt.length = (markMaze m x y).txt.length ∧
              ∀ i, (mm2.txt.getD i []).length = ((markMaze m x y).txt.getD i []).length) := by
          refine andThen_rel (fun mz => MRel (markMaze m x y) mz ∧
              mz.txt.length = (markMaze m x y).txt.length ∧
              ∀ i, (mz.txt.getD i []).length = ((markMaze m x y).txt.getD i []).length) _ _ ?_ ?_
          · -- first attempt
            intro mm bb he
            refine andThen_rel (fun mz => MRel (markMaze m x y) mz ∧
              mz.txt.length = (markMaze m x y).txt.length ∧
              ∀ i, (mz.txt.getD i []).length = ((markMaze m x y).txt.getD i []).length) _ _ ?_ ?_ mm bb he
            · intro mm0 bb0 he0
              refine andThen_rel (fun mz => MRel (markMaze m x y) mz ∧
              mz.txt.length = (markMaze m x y).txt.length ∧
              ∀ i, (mz.txt.getD i []).length = ((markMaze m x y).txt.getD i []).length) _ _ ?_ ?_ mm0 bb0 he0
              · intro mm1 bb1 he1
                split at he1
                · exact (ih (markMaze m x y) (x - 1) y LEFT mm1 bb1 he1).1
                · simp only [Option.some_inj, Prod.mk.injEq] at he1
                  rw [← he1.1]
                  exact ⟨MRel_refl _, rfl, fun _ => rfl⟩
              · intro mm1 mm1b bb1 hp he1
                split at he1
                · obtain ⟨hrel, ht1, ht2⟩ := hp
                  obtain ⟨⟨hrel2, ht12, ht22⟩, -⟩ := ih mm1 x (y - 1) UP mm1b bb1 he1
                  exact ⟨MRel_trans _ _ _ hrel hrel2, ht12.trans ht1,
                    fun i => (ht22 i).trans (ht2 i)⟩
                · simp only [Option.some_inj, Prod.mk.injEq] at he1
                  rw [← he1.1]
                  exact hp
            · intro mm0 mm0b bb0 hp he0
              split at he0
              · obtain ⟨hrel, ht1, ht2⟩ := hp
                obtain ⟨⟨hrel2, ht12, ht22⟩, -⟩ := ih mm0 x (y + 1) DOWN mm0b bb0 he0
                exact ⟨MRel_trans _ _ _ hrel hrel2, ht12.trans ht1,
                  fun i => (ht22 i).trans (ht2 i)⟩
              · simp only [Option.some_inj, Prod.mk.injEq] at he0
                rw [← he0.1]
                exact hp
          · intro mm mmb bb hp he
            split at he
            · obtain ⟨hrel, ht1, ht2⟩ := hp
              obtain ⟨⟨hrel2, ht12, ht22⟩, -⟩ := ih mm (x + 1) y RIGHT mmb bb he
              exact ⟨MRel_trans _ _ _ hrel hrel2, ht12.trans ht1,
                fun i => (ht22 i).trans (ht2 i)⟩
            · simp only [Option.some_inj, Prod.mk.injEq] at he
              rw [← he.1]
              exact hp
        rcases ho4 : andThen (andThen (andThen
            (if fr ≠ RIGHT ∧ cellAt m.rows x y &&& LEFT ≠ 0 then
              solveMaze k (markMaze m x y) (x - 1) y LEFT
             else some (markMaze m x y, false))
            (fun mm => if fr ≠ DOWN ∧ cellAt m.rows x y &&& UP ≠ 0 then
              solveMaze k mm x (y - 1) UP
             else some (mm, false)))
            (fun mm => if fr ≠ UP ∧ cellAt m.rows x y &&& DOWN ≠ 0 then
              solveMaze k mm x (y + 1) DOWN
             else some (mm, false)))
            (fun mm => if fr ≠ LEFT ∧ cellAt m.rows x y &&& RIGHT ≠ 0 then
              solveMaze k mm (x + 1) y RIGHT
             else some (mm, false)) with _ | ⟨m5, b5⟩
        · rw [ho4] at h
          exact absurd h (by simp)
        · rw [ho4] at h
          have hp5 := hrel4 m5 b5 ho4
          cases b5
          · have h2 : some (m5, false) = some (m2, b) := h
            simp only [Option.some_inj, Prod.mk.injEq] at h2
            rw [← h2.1]
            obtain ⟨hrel, ht1, ht2⟩ := hp5
            exact ⟨⟨MRel_trans _ _ _ (markMaze_rel m x y) hrel,
              ht1.trans (by rw [markMaze_txt]),
              fun i => (ht2 i).trans (by rw [markMaze_txt])⟩, fun _ => hrel⟩
          · have h2 : some (solutionCell m5 x y, true) = some (m2, b) := h
            simp only [Option.some_inj, Prod.mk.injEq] at h2
            rw [← h2.1]
            obtain ⟨hrel, ht1, ht2⟩ := hp5
            obtain ⟨hs1, hs2⟩ := solutionCell_txt_shape m5 x y
            refine ⟨⟨MRel_trans _ _ _ (markMaze_rel m x y)
              (MRel_trans _ _ _ hrel (solutionCell_rel m5 x y)), ?_, ?_⟩,
              fun _ => MRel_trans _ _ _ hrel (solutionCell_rel m5 x y)⟩
            · rw [hs1, ht1, markMaze_txt]
            · intro i
              rw [hs2 i, ht2 i, markMaze_txt]

/-- The C termination argument: every call either returns at once or
marks a previously unchecked cell, so `uncheckedCount + 1` recursion
levels always suffice — the fuelled model never returns `none` when
given that much fuel, on a closed rectangular grid. -/
theorem solveMaze_total : ∀ (fuel : Nat) (m : Maze) (x y : Int) (fr : Nat),
    Rect m → ClosedGrid m → InGrid m x y → uncheckedCount m.rows < fuel →
    solveMaze fuel m x y fr ≠ none := by
  intro fuel
  induction fuel with
  | zero => intro m x y fr _ _ _ hcnt; omega
  | succ k ih =>
    intro m x y fr hR hC hI hcnt
    by_cases hch : cellAt m.rows x y &&& CHECKED ≠ 0
    · rw [solveMaze_checked k m x y fr hch]
      simp
    · have hch0 : cellAt m.rows x y &&& CHECKED = 0 := not_ne_iff.mp hch
      by_cases hd : x = m.destX ∧ y = m.destY
      · rw [solveMaze_dest k m x y fr hch0 hd]
        simp
      · rw [solveMaze_step k m x y fr hch0 hd]
        have hm1rel : MRel m (markMaze m x y) := markMaze_rel m x y
        have hR1 : Rect (markMaze m x y) := Rect_rel _ _ hm1rel hR
        have hC1 : ClosedGrid (markMaze m x y) := Closed_rel _ _ hm1rel hC
        have hcntm : uncheckedCount (markMaze m x y).rows + 1 = uncheckedCount m.rows :=
          uncheckedCount_mark m x y hR hI hch0
        have hnb := closed_step m x y hR hC hI
        have hgo : ∀ (mm : Maze) (nx ny : Int) (d : Nat), MRel (markMaze m x y) mm →
            InGrid m nx ny → solveMaze k mm nx ny d ≠ none := by
          intro mm nx ny d hmm hIn
          have hrelm : MRel m mm := MRel_trans _ _ _ hm1rel hmm
          have hcnt2 : uncheckedCount mm.rows ≤ uncheckedCount (markMaze m x y).rows :=
            uncheckedCount_rel _ _ hmm.1
          exact ih mm nx ny d (Rect_rel _ _ hrelm hR) (Closed_rel _ _ hrelm hC)
            (InGrid_rel _ _ hrelm _ _ hIn) (by omega)
        have hprops := andThen_props (fun mz => MRel (markMaze m x y) mz)
          (andThen (andThen
            (if fr ≠ RIGHT ∧ cellAt m.rows x y &&& LEFT ≠ 0 then
              solveMaze k (markMaze m x y) (x - 1) y LEFT
             else some (markMaze m x y, false))
            (fun mm => if fr ≠ DOWN ∧ cellAt m.rows x y &&& UP ≠ 0 then
              solveMaze k mm x (y - 1) UP
             else some (mm, false)))
            (fun mm => if fr ≠ UP ∧ cellAt m.rows x y &&& DOWN ≠ 0 then
              solveMaze k mm x (y + 1) DOWN
             else some (mm, false)))
          (fun mm => if fr ≠ LEFT ∧ cellAt m.rows x y &&& RIGHT ≠ 0 then
            solveMaze k mm (x + 1) y RIGHT
           else some (mm, false)) ?_ ?_ ?_
        · rcases ho4 : andThen (andThen (andThen
              (if fr ≠ RIGHT ∧ cellAt m.rows x y &&& LEFT ≠ 0 then
                solveMaze k (markMaze m x y) (x - 1) y LEFT
               else some (markMaze m x y, false))
              (fun mm => if fr ≠ DOWN ∧ cellAt m.rows x y &&& UP ≠ 0 then
                solveMaze k mm x (y - 1) UP
               else some (mm, false)))
              (fun mm => if fr ≠ UP ∧ cellAt m.rows x y &&& DOWN ≠ 0 then
                solveMaze k mm x (y + 1) DOWN
               else some (mm, false)))
              (fun mm => if fr ≠ LEFT ∧ cellAt m.rows x y &&& RIGHT ≠ 0 then
                solveMaze k mm (x + 1) y RIGHT
               else some (mm, false)) with _ | ⟨m5, b5⟩
          · exact absurd ho4 hprops.1
          · cases b5 <;> simp
        · -- the inner chain (first three attempts) is not none and preserves MRel
          refine (andThen_props (fun mz => MRel (markMaze m x y) mz) _ _ ?_ ?_ ?_).1
          · refine (andThen_props (fun mz => MRel (markMaze m x y) mz) _ _ ?_ ?_ ?_).1
            · split
              · rename_i hcond
                exact hgo (markMaze m x y) (x - 1) y LEFT (MRel_refl _) (hnb.1 hcond.2)
              · simp
            · intro mm bb he
              split at he
              · exact (solveMaze_evolution k (markMaze m x y) (x - 1) y LEFT mm bb he).1.1
              · simp only [Option.some_inj, Prod.mk.injEq] at he
                rw [← he.1]
                exact MRel_refl _
            · intro mm hmm
              constructor
              · split
                · rename_i hcond
                  exact hgo mm x (y - 1) UP hmm (hnb.2.2.1 hcond.2)
                · simp
              · intro mm2 bb he
                split at he
                · exact MRel_trans _ _ _ hmm
                    (solveMaze_evolution k mm x (y - 1) UP mm2 bb he).1.1
                · simp only [Option.some_inj, Prod.mk.injEq] at he
                  rw [← he.1]
                  exact hmm
          · refine andThen_rel (fun mz => MRel (markMaze m x y) mz) _ _ ?_ ?_
            · intro mm0 bb0 he0
              split at he0
              · exact (solveMaze_evolution k (markMaze m x y) (x - 1) y LEFT mm0 bb0 he0).1.1
              · simp only [Option.some_inj, Prod.mk.injEq] at he0
                rw [← he0.1]
                exact MRel_refl _
            · intro mm0 mm1 bb0 hp he0
              split at he0
              · exact MRel_trans _ _ _ hp
                  (solveMaze_evolution k mm0 x (y - 1) UP mm1 bb0 he0).1.1
              · simp only [Option.some_inj, Prod.mk.injEq] at he0
                rw [← he0.1]
                exact hp
          · intro mm hmm
            constructor
            · split
              · rename_i hcond
                exact hgo mm x (y + 1) DOWN hmm (hnb.2.2.2 hcond.2)
              · simp
            · intro mm2 bb he
              split at he
              · exact MRel_trans _ _ _ hmm
                  (solveMaze_evolution k mm x (y + 1) DOWN mm2 bb he).1.1
              · simp only [Option.some_inj, Prod.mk.injEq] at he
                rw [← he.1]
                exact hmm
        · intro mm bb he
          refine andThen_rel (fun mz => MRel (markMaze m x y) mz) _ _ ?_ ?_ mm bb he
          · intro mm0 bb0 he0
            refine andThen_rel (fun mz => MRel (markMaze m x y) mz) _ _ ?_ ?_ mm0 bb0 he0
            · intro mm1 bb1 he1
              split at he1
              · exact (solveMaze_evolution k (markMaze m x y) (x - 1) y LEFT mm1 bb1 he1).1.1
              · simp only [Option.some_inj, Prod.mk.injEq] at he1
                rw [← he1.1]
                exact MRel_refl _
            · intro mm1 mm2 bb1 hp he1
              split at he1
              · exact MRel_trans _ _ _ hp
                  (solveMaze_evolution k mm1 x (y - 1) UP mm2 bb1 he1).1.1
              · simp only [Option.some_inj, Prod.mk.injEq] at he1
                rw [← he1.1]
                exact hp
          · intro mm1 mm2 bb1 hp he1
            split at he1
            · exact MRel_trans _ _ _ hp
                (solveMaze_evolution k mm1 x (y + 1) DOWN mm2 bb1 he1).1.1
            · simp only [Option.some_inj, Prod.mk.injEq] at he1
              rw [← he1.1]
              exact hp
        · intro mm hmm
          constructor
          · split
            · rename_i hcond
              exact hgo mm (x + 1) y RIGHT hmm (hnb.2.1 hcond.2)
            · simp
          · intro mm2 bb he
            split at he
            · exact MRel_trans _ _ _ hmm
                (solveMaze_evolution k mm (x + 1) y RIGHT mm2 bb he).1.1
            · simp only [Option.some_inj, Prod.mk.injEq] at he
              rw [← he.1]
              exact hmm

/-! ## Claim C7 -/

/-- C7: on every finite parsed grid — closed (no passage leaves the
grid) and rectangular, cycles allowed — the backtracking search
terminates: `uncheckedCount + 1` recursion levels always suffice, a cell
already flagged CHECKED returns failure immediately, and the CHECKED
flag is set on entry to every cell the search reaches (it is set in
every outcome of a call that starts at the cell). -/
theorem C7_backtracking_terminates (m : Maze) (x y : Int) (fr : Nat) (fuel : Nat)
    (hR : Rect m) (hC : ClosedGrid m) (hI : InGrid m x y) :
    (uncheckedCount m.rows < fuel → solveMaze fuel m x y fr ≠ none) ∧
    (cellAt m.rows x y &&& CHECKED ≠ 0 → solveMaze (fuel + 1) m x y fr = some (m, false)) ∧
    (∀ m2 b, solveMaze fuel m x y fr = some (m2, b) →
      cellAt m2.rows x y &&& CHECKED ≠ 0) := by
  refine ⟨fun h => solveMaze_total fuel m x y fr hR hC hI h,
    fun h => solveMaze_checked fuel m x y fr h, ?_⟩
  intro m2 b h
  by_cases hch : cellAt m.rows x y &&& CHECKED ≠ 0
  · rcases fuel with _ | k
    · rw [solveMaze_zero] at h
      exact absurd h (by simp)
    · rw [solveMaze_checked k m x y fr hch] at h
      simp only [Option.some_inj, Prod.mk.injEq] at h
      rw [← h.1]
      exact hch
  · have hch0 := not_ne_iff.mp hch
    rcases fuel with _ | k
    · rw [solveMaze_zero] at h
      exact absurd h (by simp)
    · have hmark := (solveMaze_evolution (k + 1) m x y fr m2 b h).2 hch0
      have hmcell : cellAt (markMaze m x y).rows x y = cellAt m.rows x y ||| CHECKED :=
        markMaze_cell m x y hR hI
      have hcellrel := RowsRel_cell _ _ hmark.1 y.toNat x.toNat
      obtain ⟨hx0, hxw, hy0, hyh⟩ := hI
      have hnat1 : cellAt (markMaze m x y).rows x y =
          ((markMaze m x y).rows.getD y.toNat []).getD x.toNat 0 := by
        unfold cellAt
        rw [getI_nonneg _ _ _ hx0, getI_nonneg _ _ _ hy0]
      have hnat2 : cellAt m2.rows x y = (m2.rows.getD y.toNat []).getD x.toNat 0 := by
        unfold cellAt
        rw [getI_nonneg _ _ _ hx0, getI_nonneg _ _ _ hy0]
      rw [hnat2]
      refine CellRel_checked _ _ hcellrel ?_
      rw [← hnat1, hmcell]
      exact orC_andC _

theorem C7_witness :
    solveMaze 2 ⟨[[0]], [[]], 1, 0, 0, 0⟩ 0 0 0 ≠ none ∧
    solveMaze 2 ⟨[[32]], [[]], 1, 0, 0, 0⟩ 0 0 0 = some (⟨[[32]], [[]], 1, 0, 0, 0⟩, false) := by
  constructor
  · exact (C7_backtracking_terminates ⟨[[0]], [[]], 1, 0, 0, 0⟩ 0 0 0 2
      (by decide) (by decide) (by decide)).1 (by decide)
  · exact (C7_backtracking_terminates ⟨[[32]], [[]], 1, 0, 0, 0⟩ 0 0 0 1
      (by decide) (by decide) (by decide)).2.1 (by decide)

/-! ## Claim C8 -/

/-- Reading back the two interior characters written by `solutionCell`. -/
theorem getI_setI_self {α : Type} (l : List α) (i : Int) (v d : α)
    (h0 : 0 ≤ i) (hlt : i.toNat < l.length) : getI (setI l i v) i d = v := by
  rw [getI_nonneg _ _ _ h0, setI_getD, if_pos ⟨by omega, hlt⟩]

theorem getI_setI_ne {α : Type} (l : List α) (i j : Int) (v d : α) (hne : j ≠ i) :
    getI (setI l i v) j d = getI l j d := by
  by_cases hj : 0 ≤ j
  · rw [getI_nonneg _ _ _ hj, getI_nonneg _ _ _ hj, setI_getD,
      if_neg (by rintro ⟨hc, -⟩; omega)]
  · unfold getI
    rw [if_neg hj, if_neg hj]

theorem solutionCell_reads (mz : Maze) (x y : Int) (hx0 : 0 ≤ x) (hy0 : 0 ≤ y)
    (hyl : (y * 2 + 1).toNat < mz.txt.length)
    (hxl : (x * 3 + BUFFER + 2).toNat < (mz.txt.getD (y * 2 + 1).toNat []).length) :
    getI (getI (solutionCell mz x y).txt (y * 2 + 1) []) (x * 3 + BUFFER + 1) ' ' =
      PATHMARKER ∧
    getI (getI (solutionCell mz x y).txt (y * 2 + 1) []) (x * 3 + BUFFER + 2) ' ' =
      PATHMARKER := by
  unfold solutionCell
  dsimp only
  rw [getI_setI_self _ _ _ _ (by omega) hyl]
  constructor
  · rw [getI_setI_ne _ _ _ _ _ (by omega), getI_setI_self _ _ _ _ (by omega) ?_]
    rw [getI_nonneg _ _ _ (by omega)]
    omega
  · rw [getI_setI_self _ _ _ _ (by omega) ?_]
    rw [setI_length, getI_nonneg _ _ _ (by omega)]
    omega

/-- C8: the recursion's visible behaviour.
(1) Reaching the destination (unchecked) marks it as part of the
solution and returns success immediately, leaving every other grid cell
untouched (no neighbor is explored).
(2) Whenever a call returns success, the current cell's two interior
text characters carry the path marker.
(3) The direction that is the reverse of `from` is skipped: entering
with `from = RIGHT` a cell whose only passage is LEFT explores nothing
and fails.
(4) The directions are tried in the fixed order starting with LEFT,
short-circuiting on the first success: if the LEFT recursion succeeds,
the call returns success with the current cell marked, without trying
UP, DOWN or RIGHT. -/
theorem C8_search_order (m : Maze) (x y : Int) (fr : Nat) (fuel : Nat) :
    (cellAt m.rows x y &&& CHECKED = 0 → x = m.destX ∧ y = m.destY →
      solveMaze (fuel + 1) m x y fr = some (solutionCell (markMaze m x y) x y, true) ∧
      ∀ x2 y2 : Int, ¬(x2 = x ∧ y2 = y) →
        cellAt (solutionCell (markMaze m x y) x y).rows x2 y2 = cellAt m.rows x2 y2) ∧
    (∀ m2, solveMaze fuel m x y fr = some (m2, true) →
      0 ≤ x → 0 ≤ y → (y * 2 + 1).toNat < m.txt.length →
      (x * 3 + BUFFER + 2).toNat < (m.txt.getD (y * 2 + 1).toNat []).length →
      getI (getI m2.txt (y * 2 + 1) []) (x * 3 + BUFFER + 1) ' ' = PATHMARKER ∧
      getI (getI m2.txt (y * 2 + 1) []) (x * 3 + BUFFER + 2) ' ' = PATHMARKER) ∧
    (cellAt m.rows x y &&& CHECKED = 0 → ¬(x = m.destX ∧ y = m.destY) → fr = RIGHT →
      cellAt m.rows x y &&& UP = 0 → cellAt m.rows x y &&& DOWN = 0 →
      cellAt m.rows x y &&& RIGHT = 0 →
      solveMaze (fuel + 1) m x y fr = some (markMaze m x y, false)) ∧
    (cellAt m.rows x y &&& CHECKED = 0 → ¬(x = m.destX ∧ y = m.destY) → fr ≠ RIGHT →
      cellAt m.rows x y &&& LEFT ≠ 0 →
      ∀ mL, solveMaze fuel (markMaze m x y) (x - 1) y LEFT = some (mL, true) →
      solveMaze (fuel + 1) m x y fr = some (solutionCell mL x y, true)) := by
  refine ⟨?_, ?_, ?_, ?_⟩
  · intro h0 hd
    refine ⟨solveMaze_dest fuel m x y fr h0 hd, ?_⟩
    intro x2 y2 hne
    show cellAt (setCell m.rows x y (cellAt m.rows x y ||| CHECKED)) x2 y2 =
      cellAt m.rows x2 y2
    rw [cellAt_setCell, if_neg (fun hc => hne ⟨hc.1, hc.2.1⟩)]
  · intro m2 h hx0 hy0 hyl hxl
    rcases fuel with _ | k
    · rw [solveMaze_zero] at h
      exact absurd h (by simp)
    · have hshape := (solveMaze_evolution (k + 1) m x y fr m2 true h).1
      by_cases hch : cellAt m.rows x y &&& CHECKED ≠ 0
      · rw [solveMaze_checked k m x y fr hch] at h
        simp only [Option.some_inj, Prod.mk.injEq] at h
        exact absurd h.2 (by simp)
      · have hch0 := not_ne_iff.mp hch
        by_cases hd : x = m.destX ∧ y = m.destY
        · rw [solveMaze_dest k m x y fr hch0 hd] at h
          simp only [Option.some_inj, Prod.mk.injEq] at h
          rw [← h.1]
          exact solutionCell_reads (markMaze m x y) x y hx0 hy0 hyl hxl
        · rw [solveMaze_step k m x y fr hch0 hd] at h
          rcases ho4 : andThen (andThen (andThen
              (if fr ≠ RIGHT ∧ cellAt m.rows x y &&& LEFT ≠ 0 then
                solveMaze k (markMaze m x y) (x - 1) y LEFT
               else some (markMaze m x y, false))
              (fun mm => if fr ≠ DOWN ∧ cellAt m.rows x y &&& UP ≠ 0 then
                solveMaze k mm x (y - 1) UP
               else some (mm, false)))
              (fun mm => if fr ≠ UP ∧ cellAt m.rows x y &&& DOWN ≠ 0 then
                solveMaze k mm x (y + 1) DOWN
               else some (mm, false)))
              (fun mm => if fr ≠ LEFT ∧ cellAt m.rows x y &&& RIGHT ≠ 0 then
                solveMaze k mm (x + 1) y RIGHT
               else some (mm, false)) with _ | ⟨m5, b5⟩
          · rw [ho4] at h
            exact absurd h (by simp)
          · rw [ho4] at h
            cases b5
            · have h2 : some (m5, false) = some (m2, true) := h
              simp only [Option.some_inj, Prod.mk.injEq] at h2
              exact absurd h2.2 (by simp)
            · have h2 : some (solutionCell m5 x y, true) = some (m2, true) := h
              simp only [Option.some_inj, Prod.mk.injEq] at h2
              rw [← h2.1]
              rw [← h2.1] at hshape
              have hlen5 : m5.txt.length = m.txt.length := by
                have hs := (solutionCell_txt_shape m5 x y).1
                have h3 := hshape.2.1
                rw [hs] at h3
                exact h3
              have hline5 : (m5.txt.getD (y * 2 + 1).toNat []).length =
                  (m.txt.getD (y * 2 + 1).toNat []).length := by
                have hs := (solutionCell_txt_shape m5 x y).2 (y * 2 + 1).toNat
                have h3 := hshape.2.2 (y * 2 + 1).toNat
                rw [hs] at h3
                exact h3
              exact solutionCell_reads m5 x y hx0 hy0 (by omega) (by omega)
  · intro h0 hd hfr hUP hDOWN hRIGHT
    subst hfr
    rw [solveMaze_step fuel m x y RIGHT h0 hd]
    rw [if_neg (fun hc => hc.1 rfl)]
    rw [andThen_false]
    rw [if_neg (fun hc => hc.2 hUP)]
    rw [andThen_false]
    rw [if_neg (fun hc => hc.2 hDOWN)]
    rw [andThen_false]
    rw [if_neg (fun hc => hc.2 hRIGHT)]
    rfl
  · intro h0 hd hfr hL mL hrec
    rw [solveMaze_step fuel m x y fr h0 hd]
    rw [if_pos ⟨hfr, hL⟩, hrec, andThen_true, andThen_true, andThen_true]
    rfl

theorem C8_witness :
    solveMaze 1 ⟨[[0]], [[]], 1, 0, 0, 0⟩ 0 0 0 =
      some (solutionCell (markMaze ⟨[[0]], [[]], 1, 0, 0, 0⟩ 0 0) 0 0, true) ∧
    solveMaze 1 ⟨[[4]], [[]], 1, 0, 5, 5⟩ 0 0 RIGHT =
      some (markMaze ⟨[[4]], [[]], 1, 0, 5, 5⟩ 0 0, false) := by
  constructor
  · exact ((C8_search_order ⟨[[0]], [[]], 1, 0, 0, 0⟩ 0 0 0 0).1 (by decide)
      (by exact ⟨rfl, rfl⟩)).1
  · exact (C8_search_order ⟨[[4]], [[]], 1, 0, 5, 5⟩ 0 0 RIGHT 0).2.2.1 (by decide)
      (by decide) rfl (by decide) (by decide) (by decide)

end Asciimaze
